import Mathlib

/-!
Verification development for the terra_tools repository
(`src/terratools/properties/attenuation.py` and `src/terratools/lookup_tables.py`).

The Python code computes with IEEE floats and numpy arrays; here it is shallowly
embedded over exact rationals: floats become `ℚ`, numpy arrays become `List ℚ`,
and the transcendental routines `np.exp`, `np.power`, `np.tan` together with the
constant `np.pi` — which both of the dual code paths call identically — are
abstracted as the fields of a `MathFns` record.  numpy's `1.0 / x`, which yields
`inf` at `x = 0` instead of raising, is modelled by `npRecip` with an explicit
infinity value.
-/

namespace TerraTools

/-! ### Generic list lemmas used throughout -/

theorem getD_map {α β : Type} (f : α → β) (l : List α) (i : Nat) (da : α) (db : β)
    (h : i < l.length) : (l.map f).getD i db = f (l.getD i da) := by
  induction l generalizing i with
  | nil => simp at h
  | cons a as ih =>
    cases i with
    | zero => rfl
    | succ n =>
      simp only [List.map_cons, List.getD_cons_succ]
      exact ih n (by simpa using h)

theorem getD_zipWith {α β γ : Type} (f : α → β → γ) (as : List α) (bs : List β) (i : Nat)
    (da : α) (db : β) (dc : γ) (ha : i < as.length) (hb : i < bs.length) :
    (List.zipWith f as bs).getD i dc = f (as.getD i da) (bs.getD i db) := by
  induction as generalizing bs i with
  | nil => simp at ha
  | cons a as ih =>
    cases bs with
    | nil => simp at hb
    | cons b bs =>
      cases i with
      | zero => rfl
      | succ n =>
        simp only [List.zipWith_cons_cons, List.getD_cons_succ]
        exact ih bs n (by simpa using ha) (by simpa using hb)

theorem getD_zip {α β : Type} (as : List α) (bs : List β) (i : Nat) (da : α) (db : β)
    (ha : i < as.length) (hb : i < bs.length) :
    (List.zip as bs).getD i (da, db) = (as.getD i da, bs.getD i db) :=
  getD_zipWith Prod.mk as bs i da db (da, db) ha hb

theorem getD_replicate {α : Type} (n i : Nat) (d a : α) (h : i < n) :
    (List.replicate n a).getD i d = a := by
  induction n generalizing i with
  | zero => omega
  | succ m ih =>
    cases i with
    | zero => rfl
    | succ k =>
      simp only [List.replicate_succ, List.getD_cons_succ]
      exact ih k (by omega)

theorem headD_eq_getD {α : Type} (l : List α) (d : α) : l.headD d = l.getD 0 d := by
  cases l <;> rfl

theorem rangeMap_getD {α : Type} (l : List α) (d : α) :
    (List.range l.length).map (fun m => l.getD m d) = l := by
  induction l with
  | nil => rfl
  | cons a as ih =>
    simp only [List.length_cons, List.range_succ_eq_map, List.map_cons, List.getD_cons_zero,
      List.map_map]
    refine congrArg (a :: ·) ?_
    have : ((fun m => (a :: as).getD m d) ∘ Nat.succ) = fun m => as.getD m d := by
      funext m; rfl
    rw [this, ih]

theorem foldl_add_eq_sum {α : Type} (t : α → ℚ) (l : List α) :
    ∀ s : ℚ, l.foldl (fun acc x => acc + t x) s = s + (l.map t).sum := by
  induction l with
  | nil => intro s; simp
  | cons a as ih =>
    intro s
    simp only [List.foldl_cons, List.map_cons, List.sum_cons]
    rw [ih (s + t a)]; ring

end TerraTools

namespace TerraTools

/-! ### Data model of `attenuation.py` -/

/-- Abstract stand-ins for the transcendental routines the Python code calls:
`fexp` for `np.exp`, `fpow` for `np.power`, `ftan` for `np.tan`, `pi` for `np.pi`.
Both the scalar and the array code path call exactly the same routines, so every
theorem relating or evaluating them is quantified over an arbitrary `MathFns`. -/
structure MathFns where
  fexp : ℚ → ℚ
  fpow : ℚ → ℚ → ℚ
  ftan : ℚ → ℚ
  pi : ℚ

/-- One per-material attenuation parameter set `{"Q0": _, "g": _, "a": _, "QK": _}`. -/
structure QModel where
  Q0 : ℚ
  g : ℚ
  a : ℚ
  QK : ℚ
deriving DecidableEq, Repr

/-- A numpy double that is either finite or `np.inf` (the value `Q_P` can take). -/
inductive QPval where
  | inf : QPval
  | val : ℚ → QPval
deriving DecidableEq, Repr

/-- numpy's `1.0 / x` on a float64: `inf` at `x = 0` (a warning, not an exception). -/
def npRecip (x : ℚ) : QPval :=
  if x = 0 then QPval.inf else QPval.val (1 / x)

/-- Configuration of `AttenuationModelGoes.__init__`.  In Python
`T_solidus_function` and `model_mixing_function` are single functions used
polymorphically on scalars and arrays; the embedding carries the scalar and the
array instantiation as separate fields. -/
structure AttenuationModelGoes where
  T_solidus_function : ℚ → ℚ
  T_solidus_function_arr : List ℚ → List ℚ
  model_mixing_function : ℚ → ℚ → List ℚ
  model_mixing_function_arr : List ℚ → List ℚ → List (List ℚ)
  Q_models : List QModel

/-- The `AnelasticProperties` named tuple (scalar code path). -/
structure AnelasticProperties where
  V_P : ℚ
  V_S : ℚ
  Q_S : ℚ
  Q_K : ℚ
  Q_P : QPval
  T_solidus : ℚ
deriving DecidableEq, Repr

/-- The `AnelasticProperties` named tuple (array code path). -/
structure AnelasticPropertiesArr where
  V_P : List ℚ
  V_S : List ℚ
  Q_S : List ℚ
  Q_K : List ℚ
  Q_P : List QPval
  T_solidus : List ℚ
deriving DecidableEq, Repr

/-- Scalar code path of `AttenuationModelGoes.anelastic_properties`
(the `try` branch, reached when `float(pressure)` succeeds).
The loop `for i, f in enumerate(fractions): Q_mod = self.Q_models[i]` walks the
fraction/model pairs in order, embedded as a fold over `List.zip`. -/
def anelastic_properties (M : MathFns) (engine : AttenuationModelGoes)
    (elastic_Vp elastic_Vs pressure temperature frequency
      dT_Q_constant_above_solidus : ℚ) : AnelasticProperties :=
  let fractions := engine.model_mixing_function pressure temperature
  let Tm := engine.T_solidus_function pressure
  let Q_temperature :=
    if dT_Q_constant_above_solidus < temperature - Tm
    then Tm + dT_Q_constant_above_solidus else temperature
  let QS := (List.zip fractions engine.Q_models).foldl
    (fun acc fq => acc + fq.1 * (fq.2.Q0 * M.fpow frequency fq.2.a
      * M.fexp (fq.2.a * fq.2.g * Tm / Q_temperature))) 0
  let QK := (List.zip fractions engine.Q_models).foldl
    (fun acc fq => acc + fq.1 * fq.2.QK) 0
  let alpha := (List.zip fractions engine.Q_models).foldl
    (fun acc fq => acc + fq.1 * fq.2.a) 0
  let invQS := 1 / QS
  let invQK := 1 / QK
  let lmda := 4 / 3 * (elastic_Vs / elastic_Vp) ^ 2
  let invQP0 := (1 - lmda) * invQK + lmda * invQS
  let invQP := if invQP0 < 0 then 0 else invQP0
  let QP := if invQP0 < 0 then QPval.inf else npRecip invQP0
  let anelastic_Vp := elastic_Vp * (1 - invQP / (2 * M.ftan (M.pi * alpha / 2)))
  let anelastic_Vs := elastic_Vs * (1 - invQS / (2 * M.ftan (M.pi * alpha / 2)))
  { V_P := anelastic_Vp, V_S := anelastic_Vs, Q_S := QS, Q_K := QK,
    Q_P := QP, T_solidus := Tm }

/-! Array code path of `anelastic_properties` (the `except TypeError` branch).
Each statement of the Python array branch becomes one named definition below;
numpy whole-array operations become `List.zipWith`/`List.map`, and the masked
assignments through `np.argwhere` indices become per-element conditionals
(`Q_temperature[idx] = Tm[idx] + dT`; `invQP[idx] = 0; QP[idx] = np.inf`;
`QP[idx] = 1/invQP[idx]`), which is what they do element for element. -/

/-- `Q_temperature = deepcopy(temperature); Q_temperature[idx] = Tm[idx] + dT`
for `idx = argwhere(temperature > Tm + dT)`. -/
def arrQTemp (dT : ℚ) (Ts Tm : List ℚ) : List ℚ :=
  List.zipWith (fun T tm => if tm + dT < T then tm + dT else T) Ts Tm

/-- The material columns `fractions.T` of the `(N, k)` fraction matrix. -/
def matColsOf (fractions : List (List ℚ)) : List (List ℚ) :=
  (List.range ((fractions.headD []).length)).map
    (fun m => fractions.map (fun row => row.getD m 0))

/-- `QS = zeros_like(temperature)` followed by the accumulation loop
`QS += f * (Q0 * power(frequency, a) * exp(a * g * Tm / Q_temperature))`
over the material columns `f`. -/
def arrQS (M : MathFns) (qms : List QModel) (frequency : ℚ) (mats : List (List ℚ))
    (Tm QT : List ℚ) (n : Nat) : List ℚ :=
  (List.zip mats qms).foldl
    (fun acc fq => List.zipWith (· + ·) acc
      (List.zipWith (fun f tq => f * (fq.2.Q0 * M.fpow frequency fq.2.a
        * M.fexp (fq.2.a * fq.2.g * tq.1 / tq.2))) fq.1 (List.zip Tm QT)))
    (List.replicate n 0)

/-- `QK = zeros_like(temperature)` followed by `QK += f * Q_mod["QK"]`. -/
def arrQK (qms : List QModel) (mats : List (List ℚ)) (n : Nat) : List ℚ :=
  (List.zip mats qms).foldl
    (fun acc fq => List.zipWith (· + ·) acc (fq.1.map (fun f => f * fq.2.QK)))
    (List.replicate n 0)

/-- `alpha = zeros_like(temperature)` followed by `alpha += f * Q_mod["a"]`. -/
def arrAlpha (qms : List QModel) (mats : List (List ℚ)) (n : Nat) : List ℚ :=
  (List.zip mats qms).foldl
    (fun acc fq => List.zipWith (· + ·) acc (fq.1.map (fun f => f * fq.2.a)))
    (List.replicate n 0)

/-- `lmda = 4/3 * power(elastic_Vs/elastic_Vp, 2.0)` element-wise. -/
def arrLmda (Vss Vps : List ℚ) : List ℚ :=
  List.zipWith (fun vs vp => 4 / 3 * (vs / vp) ^ 2) Vss Vps

/-- `invQP = (1 - lmda) * invQK + lmda * invQS` element-wise. -/
def arrInvQP0 (lmda invQK invQS : List ℚ) : List ℚ :=
  List.zipWith (· + ·)
    (List.zipWith (fun lm iqk => (1 - lm) * iqk) lmda invQK)
    (List.zipWith (fun lm iqs => lm * iqs) lmda invQS)

/-- `invQS = 1.0 / QS` element-wise (same for `invQK`). -/
def arrInv (QS : List ℚ) : List ℚ := QS.map (fun q => 1 / q)

/-- The masked clamp `invQP[argwhere(invQP <= 0)] = 0`. -/
def arrInvQPclamp (invQP0 : List ℚ) : List ℚ :=
  invQP0.map (fun x => if x ≤ 0 then 0 else x)

/-- The masked assignments `QP[argwhere(invQP <= 0)] = inf;
QP[argwhere(invQP > 0)] = 1/invQP[...]`. -/
def arrQP (invQP0 : List ℚ) : List QPval :=
  invQP0.map (fun x => if x ≤ 0 then QPval.inf else QPval.val (1 / x))

/-- The denominator `2 * tan(pi * alpha / 2)` element-wise. -/
def arrTanterm (M : MathFns) (alpha : List ℚ) : List ℚ :=
  alpha.map (fun al => 2 * M.ftan (M.pi * al / 2))

/-- `elastic_V * (1 - invQ / (2 tan(pi alpha / 2)))` element-wise. -/
def arrVcorr (Vl invQ tanterm : List ℚ) : List ℚ :=
  List.zipWith (· * ·) Vl (List.zipWith (fun iq tt => 1 - iq / tt) invQ tanterm)

/-- Array code path of `anelastic_properties`, assembled from the per-statement
definitions above. -/
def anelastic_properties_arr (M : MathFns) (engine : AttenuationModelGoes)
    (elastic_Vp elastic_Vs pressure temperature : List ℚ)
    (frequency dT_Q_constant_above_solidus : ℚ) : AnelasticPropertiesArr :=
  let dT := dT_Q_constant_above_solidus
  let fractions := engine.model_mixing_function_arr pressure temperature
  let Tm := engine.T_solidus_function_arr pressure
  let Q_temperature := arrQTemp dT temperature Tm
  let n := temperature.length
  let matCols := matColsOf fractions
  let QS := arrQS M engine.Q_models frequency matCols Tm Q_temperature n
  let QK := arrQK engine.Q_models matCols n
  let alpha := arrAlpha engine.Q_models matCols n
  let invQS := arrInv QS
  let invQK := arrInv QK
  let lmda := arrLmda elastic_Vs elastic_Vp
  let invQP0 := arrInvQP0 lmda invQK invQS
  let invQP := arrInvQPclamp invQP0
  let QP := arrQP invQP0
  let tanterm := arrTanterm M alpha
  let anelastic_Vp := arrVcorr elastic_Vp invQP tanterm
  let anelastic_Vs := arrVcorr elastic_Vs invQS tanterm
  { V_P := anelastic_Vp, V_S := anelastic_Vs, Q_S := QS, Q_K := QK,
    Q_P := QP, T_solidus := Tm }

/-- Scalar code path of `mantle_domain_fractions` (the `try` branch). -/
def mantle_domain_fractions (pressure temperature : ℚ) : List ℚ :=
  let P_smooth_halfwidth : ℚ := 1.1e9
  let T_ref : ℚ := 750
  let pressure_tztop := 11.1e9 + 2.4e6 * (temperature - T_ref)
  let pressure_tzbase := 26.1e9 - 2.2e6 * (temperature - T_ref)
  if pressure < pressure_tztop - P_smooth_halfwidth then [1, 0, 0]
  else if pressure < pressure_tztop + P_smooth_halfwidth then
    let f := (pressure - (pressure_tztop - P_smooth_halfwidth)) / (2 * P_smooth_halfwidth)
    [1 - f, f, 0]
  else if pressure < pressure_tzbase - P_smooth_halfwidth then [0, 1, 0]
  else if pressure < pressure_tzbase + P_smooth_halfwidth then
    let f := (pressure - (pressure_tzbase - P_smooth_halfwidth)) / (2 * P_smooth_halfwidth)
    [0, 1 - f, f]
  else [0, 0, 1]

/-- One row of the array code path of `mantle_domain_fractions`
(the `except ValueError` branch): the five masked assignments
(`um_idx`, `umtz_idx`, `tz_idx`, `tzlm_idx`, `lm_idx`) applied in program
order to one element's row, which starts as `[0, 0, 0]`.  The masks are
per-element predicates on `f_umtz`/`f_tzlm`, so the whole-array assignments act
on each row exactly like this. -/
def mantle_domain_row (f_umtz f_tzlm : ℚ) : List ℚ :=
  let r0 : ℚ × ℚ × ℚ := (0, 0, 0)
  let r1 := if f_umtz ≤ 0 then (1, r0.2.1, r0.2.2) else r0
  let r2 := if 0 ≤ f_umtz ∧ f_umtz ≤ 1 then (1 - f_umtz, f_umtz, r1.2.2) else r1
  let r3 := if 1 ≤ f_umtz ∧ f_tzlm ≤ 0 then (r2.1, 1, r2.2.2) else r2
  let r4 := if 0 ≤ f_tzlm ∧ f_tzlm ≤ 1 then (r3.1, 1 - f_tzlm, f_tzlm) else r3
  let r5 := if 1 ≤ f_tzlm then (r4.1, r4.2.1, 1) else r4
  [r5.1, r5.2.1, r5.2.2]

/-- Array code path of `mantle_domain_fractions`: per (P, T) pair, the blend
coordinates `f_umtz`, `f_tzlm` and then the row written by the masked
assignments. -/
def mantle_domain_fractions_arr (pressure temperature : List ℚ) : List (List ℚ) :=
  let P_smooth_halfwidth : ℚ := 1.1e9
  let T_ref : ℚ := 750
  List.zipWith (fun p t =>
    let pressure_tztop := 11.1e9 + 2.4e6 * (t - T_ref)
    let pressure_tzbase := 26.1e9 - 2.2e6 * (t - T_ref)
    mantle_domain_row
      ((p - (pressure_tztop - P_smooth_halfwidth)) / (2 * P_smooth_halfwidth))
      ((p - (pressure_tzbase - P_smooth_halfwidth)) / (2 * P_smooth_halfwidth)))
    pressure temperature

end TerraTools

namespace TerraTools

/-! ### C3: domain fraction properties -/


/-- The five masked assignments of the array branch collapse to a five-way case
split once the blend coordinates are at least one band apart
(`f_tzlm ≤ f_umtz - 1`, i.e. the two transition bands do not overlap). -/
theorem mantle_domain_row_eq (fu ft : ℚ) (hsep : ft ≤ fu - 1) :
    mantle_domain_row fu ft =
      (if fu < 0 then [1, 0, 0]
       else if fu < 1 then [1 - fu, fu, 0]
       else if ft < 0 then [0, 1, 0]
       else if ft < 1 then [0, 1 - ft, ft]
       else [0, 0, 1]) := by
  rcases lt_trichotomy fu 0 with h0 | h0 | h0
  · have hA : (fu ≤ 0) = True := eq_true h0.le
    have hB : (0 ≤ fu ∧ fu ≤ 1) = False := eq_false (by rintro ⟨u, -⟩; linarith)
    have hC : (1 ≤ fu ∧ ft ≤ 0) = False := eq_false (by rintro ⟨u, -⟩; linarith)
    have hD : (0 ≤ ft ∧ ft ≤ 1) = False := eq_false (by rintro ⟨u, -⟩; linarith)
    have hE : (1 ≤ ft) = False := eq_false (by intro u; linarith)
    have hP1 : (fu < 0) = True := eq_true h0
    simp only [mantle_domain_row, hA, hB, hC, hD, hE, hP1, if_true, if_false]
  · have hA : (fu ≤ 0) = True := eq_true h0.le
    have hB : (0 ≤ fu ∧ fu ≤ 1) = True := eq_true ⟨h0.ge, by linarith⟩
    have hC : (1 ≤ fu ∧ ft ≤ 0) = False := eq_false (by rintro ⟨u, -⟩; linarith)
    have hD : (0 ≤ ft ∧ ft ≤ 1) = False := eq_false (by rintro ⟨u, -⟩; linarith)
    have hE : (1 ≤ ft) = False := eq_false (by intro u; linarith)
    have hP1 : (fu < 0) = False := eq_false (by intro u; linarith)
    have hP2 : (fu < 1) = True := eq_true (by linarith)
    simp only [mantle_domain_row, hA, hB, hC, hD, hE, hP1, hP2, if_true, if_false]
  · rcases lt_trichotomy fu 1 with h1 | h1 | h1
    · have hA : (fu ≤ 0) = False := eq_false (by intro u; linarith)
      have hB : (0 ≤ fu ∧ fu ≤ 1) = True := eq_true ⟨h0.le, h1.le⟩
      have hC : (1 ≤ fu ∧ ft ≤ 0) = False := eq_false (by rintro ⟨u, -⟩; linarith)
      have hD : (0 ≤ ft ∧ ft ≤ 1) = False := eq_false (by rintro ⟨u, -⟩; linarith)
      have hE : (1 ≤ ft) = False := eq_false (by intro u; linarith)
      have hP1 : (fu < 0) = False := eq_false (by intro u; linarith)
      have hP2 : (fu < 1) = True := eq_true h1
      simp only [mantle_domain_row, hA, hB, hC, hD, hE, hP1, hP2, if_true, if_false]
    · have hft : ft ≤ 0 := by linarith
      have hA : (fu ≤ 0) = False := eq_false (by intro u; linarith)
      have hB : (0 ≤ fu ∧ fu ≤ 1) = True := eq_true ⟨h0.le, h1.le⟩
      have hC : (1 ≤ fu ∧ ft ≤ 0) = True := eq_true ⟨h1.ge, hft⟩
      have hE : (1 ≤ ft) = False := eq_false (by intro u; linarith)
      have hP1 : (fu < 0) = False := eq_false (by intro u; linarith)
      have hP2 : (fu < 1) = False := eq_false (by intro u; linarith)
      rcases lt_or_eq_of_le hft with hft' | hft'
      · have hD : (0 ≤ ft ∧ ft ≤ 1) = False := eq_false (by rintro ⟨u, -⟩; linarith)
        have hP3 : (ft < 0) = True := eq_true hft'
        simp only [mantle_domain_row, hA, hB, hC, hD, hE, hP1, hP2, hP3, if_true, if_false]
        norm_num [h1]
      · have hD : (0 ≤ ft ∧ ft ≤ 1) = True := eq_true ⟨hft'.ge, by linarith⟩
        have hP3 : (ft < 0) = False := eq_false (by intro u; linarith)
        have hP4 : (ft < 1) = True := eq_true (by linarith)
        simp only [mantle_domain_row, hA, hB, hC, hD, hE, hP1, hP2, hP3, hP4,
          if_true, if_false]
        norm_num [h1]
    · have hA : (fu ≤ 0) = False := eq_false (by intro u; linarith)
      have hB : (0 ≤ fu ∧ fu ≤ 1) = False := eq_false (by rintro ⟨-, u⟩; linarith)
      have hP1 : (fu < 0) = False := eq_false (by intro u; linarith)
      have hP2 : (fu < 1) = False := eq_false (by intro u; linarith)
      rcases lt_trichotomy ft 0 with h2 | h2 | h2
      · have hC : (1 ≤ fu ∧ ft ≤ 0) = True := eq_true ⟨h1.le, h2.le⟩
        have hD : (0 ≤ ft ∧ ft ≤ 1) = False := eq_false (by rintro ⟨u, -⟩; linarith)
        have hE : (1 ≤ ft) = False := eq_false (by intro u; linarith)
        have hP3 : (ft < 0) = True := eq_true h2
        simp only [mantle_domain_row, hA, hB, hC, hD, hE, hP1, hP2, hP3, if_true, if_false]
      · have hC : (1 ≤ fu ∧ ft ≤ 0) = True := eq_true ⟨h1.le, h2.le⟩
        have hD : (0 ≤ ft ∧ ft ≤ 1) = True := eq_true ⟨h2.ge, by linarith⟩
        have hE : (1 ≤ ft) = False := eq_false (by intro u; linarith)
        have hP3 : (ft < 0) = False := eq_false (by intro u; linarith)
        have hP4 : (ft < 1) = True := eq_true (by linarith)
        simp only [mantle_domain_row, hA, hB, hC, hD, hE, hP1, hP2, hP3, hP4,
          if_true, if_false]
      · have hC : (1 ≤ fu ∧ ft ≤ 0) = False := eq_false (by rintro ⟨-, u⟩; linarith)
        rcases lt_trichotomy ft 1 with h3 | h3 | h3
        · have hD : (0 ≤ ft ∧ ft ≤ 1) = True := eq_true ⟨h2.le, h3.le⟩
          have hE : (1 ≤ ft) = False := eq_false (by intro u; linarith)
          have hP3 : (ft < 0) = False := eq_false (by intro u; linarith)
          have hP4 : (ft < 1) = True := eq_true h3
          simp only [mantle_domain_row, hA, hB, hC, hD, hE, hP1, hP2, hP3, hP4,
            if_true, if_false]
        · have hD : (0 ≤ ft ∧ ft ≤ 1) = True := eq_true ⟨h2.le, h3.le⟩
          have hE : (1 ≤ ft) = True := eq_true h3.ge
          have hP3 : (ft < 0) = False := eq_false (by intro u; linarith)
          have hP4 : (ft < 1) = False := eq_false (by intro u; linarith)
          simp only [mantle_domain_row, hA, hB, hC, hD, hE, hP1, hP2, hP3, hP4,
            if_true, if_false]
          norm_num [h3]
        · have hD : (0 ≤ ft ∧ ft ≤ 1) = False := eq_false (by rintro ⟨-, u⟩; linarith)
          have hE : (1 ≤ ft) = True := eq_true h3.le
          have hP3 : (ft < 0) = False := eq_false (by intro u; linarith)
          have hP4 : (ft < 1) = False := eq_false (by intro u; linarith)
          simp only [mantle_domain_row, hA, hB, hC, hD, hE, hP1, hP2, hP3, hP4,
            if_true, if_false]

/-- The five-way case split common to both code paths of
`mantle_domain_fractions`. -/
def domain_fraction_cases (fu ft : ℚ) : List ℚ :=
  if fu < 0 then [1, 0, 0]
  else if fu < 1 then [1 - fu, fu, 0]
  else if ft < 0 then [0, 1, 0]
  else if ft < 1 then [0, 1 - ft, ft]
  else [0, 0, 1]

/-- Blend coordinate across the `ol-wd` (`tztop`) transition band. -/
def f_umtz (p t : ℚ) : ℚ := (p - (11.1e9 + 2.4e6 * (t - 750) - 1.1e9)) / (2 * 1.1e9)

/-- Blend coordinate across the postspinel (`tzbase`) transition band. -/
def f_tzlm (p t : ℚ) : ℚ := (p - (26.1e9 - 2.2e6 * (t - 750) - 1.1e9)) / (2 * 1.1e9)

theorem mantle_domain_row_cases (fu ft : ℚ) (hsep : ft ≤ fu - 1) :
    mantle_domain_row fu ft = domain_fraction_cases fu ft :=
  (mantle_domain_row_eq fu ft hsep).trans rfl

theorem mantle_domain_fractions_cases (p t : ℚ) :
    mantle_domain_fractions p t = domain_fraction_cases (f_umtz p t) (f_tzlm p t) := by
  have hpos : (0:ℚ) < 2 * 1.1e9 := by norm_num
  have e1 : (p < 11.1e9 + 2.4e6 * (t - 750) - 1.1e9) = (f_umtz p t < 0) :=
    propext (by rw [f_umtz, div_lt_iff₀ hpos]; constructor <;> intro <;> linarith)
  have e2 : (p < 11.1e9 + 2.4e6 * (t - 750) + 1.1e9) = (f_umtz p t < 1) :=
    propext (by rw [f_umtz, div_lt_iff₀ hpos]; constructor <;> intro <;> linarith)
  have e3 : (p < 26.1e9 - 2.2e6 * (t - 750) - 1.1e9) = (f_tzlm p t < 0) :=
    propext (by rw [f_tzlm, div_lt_iff₀ hpos]; constructor <;> intro <;> linarith)
  have e4 : (p < 26.1e9 - 2.2e6 * (t - 750) + 1.1e9) = (f_tzlm p t < 1) :=
    propext (by rw [f_tzlm, div_lt_iff₀ hpos]; constructor <;> intro <;> linarith)
  simp only [mantle_domain_fractions, domain_fraction_cases, e1, e2, e3, e4]
  rfl

theorem domain_fraction_cases_props (fu ft : ℚ) :
    (domain_fraction_cases fu ft).length = 3 ∧
    (∀ x ∈ domain_fraction_cases fu ft, 0 ≤ x ∧ x ≤ 1) ∧
    (domain_fraction_cases fu ft).sum = 1 := by
  unfold domain_fraction_cases
  split_ifs with a b c d
  · refine ⟨rfl, ?_, by simp⟩
    intro x hx; fin_cases hx <;> norm_num
  · refine ⟨rfl, ?_, by simp⟩
    intro x hx; fin_cases hx <;> constructor <;> linarith
  · refine ⟨rfl, ?_, by simp⟩
    intro x hx; fin_cases hx <;> norm_num
  · refine ⟨rfl, ?_, by simp⟩
    intro x hx; fin_cases hx <;> constructor <;> linarith
  · refine ⟨rfl, ?_, by simp⟩
    intro x hx; fin_cases hx <;> norm_num

/-- C3 (amended): the scalar code path of `mantle_domain_fractions` always
returns a length-3 vector with components in `[0, 1]` summing to exactly 1;
the array code path agrees element-for-element with the scalar path (hence has
the same properties) for every element whose temperature keeps the two
transition bands at least `2 * P_smooth_halfwidth` apart
(`pressure_tzbase - pressure_tztop ≥ 2.2e9`, i.e. `T ≤ 750 + 12.8e9/4.6e6 K`).
Outside that regime the array path's rows need not sum to 1 (see the
counterexample). -/
theorem claim3_domain_fraction_invariants :
    (∀ p t : ℚ, (mantle_domain_fractions p t).length = 3 ∧
        (∀ x ∈ mantle_domain_fractions p t, 0 ≤ x ∧ x ≤ 1) ∧
        (mantle_domain_fractions p t).sum = 1) ∧
    (∀ (ps ts : List ℚ) (i : Nat), i < ps.length → i < ts.length →
        2.2e9 ≤ 26.1e9 - 2.2e6 * (ts.getD i 0 - 750)
            - (11.1e9 + 2.4e6 * (ts.getD i 0 - 750)) →
        (mantle_domain_fractions_arr ps ts).getD i [] =
          mantle_domain_fractions (ps.getD i 0) (ts.getD i 0)) := by
  constructor
  · intro p t
    rw [mantle_domain_fractions_cases]
    exact domain_fraction_cases_props _ _
  · intro ps ts i hip hit hsep
    have harr : (mantle_domain_fractions_arr ps ts).getD i [] =
        mantle_domain_row (f_umtz (ps.getD i 0) (ts.getD i 0))
          (f_tzlm (ps.getD i 0) (ts.getD i 0)) := by
      simp only [mantle_domain_fractions_arr]
      rw [getD_zipWith _ ps ts i 0 0 [] hip hit]
      rfl
    have hd : f_tzlm (ps.getD i 0) (ts.getD i 0) ≤ f_umtz (ps.getD i 0) (ts.getD i 0) - 1 := by
      set p := ps.getD i 0
      set t := ts.getD i 0
      have hpos : (0:ℚ) < 2 * 1.1e9 := by norm_num
      rw [f_umtz, f_tzlm, div_sub_one (by norm_num), div_le_div_iff₀ (by norm_num) hpos]
      ring_nf
      ring_nf at hsep
      linarith
    rw [harr, mantle_domain_row_cases _ _ hd, mantle_domain_fractions_cases]

/-- C3 counterexample: at the batched input `P = [18.9e9] Pa`, `T = [4000] K`
(where the two blend bands overlap) the array code path of
`mantle_domain_fractions` returns the single row `[1/2, 23/44, 21/44]`,
whose components sum to `3/2`, not 1 — so the claim is false for the batched
path as stated. -/
theorem claim3_counterexample :
    (mantle_domain_fractions_arr [18.9e9] [4000]).getD 0 [] = [1/2, 23/44, 21/44] ∧
    ((mantle_domain_fractions_arr [18.9e9] [4000]).getD 0 []).sum ≠ 1 := by
  constructor
  · norm_num [mantle_domain_fractions_arr, mantle_domain_row]
  · norm_num [mantle_domain_fractions_arr, mantle_domain_row]

/-- Witness for C3: a concrete in-regime element where the array path agrees
with the scalar path. -/
theorem claim3_witness :
    (mantle_domain_fractions_arr [1.0e9] [1000]).getD 0 [] =
      mantle_domain_fractions (([(1.0e9:ℚ)]).getD 0 0) (([(1000:ℚ)]).getD 0 0) :=
  claim3_domain_fraction_invariants.2 [1.0e9] [1000] 0 (by norm_num) (by norm_num)
    (by norm_num)

/-! ### C4: effective temperature and the Q_S mixing formula -/

/-- The single-material example engine from the spec's test list:
`Q0 = 35, g = 10, a = 0.15, QK = 1000`, solidus fixed at 1600 K, one material
with fraction 1.  The array-path fields are the element-wise liftings. -/
def exampleEngine : AttenuationModelGoes where
  T_solidus_function := fun _ => 1600
  T_solidus_function_arr := fun ps => ps.map (fun _ => 1600)
  model_mixing_function := fun _ _ => [1]
  model_mixing_function_arr := fun ps ts => List.zipWith (fun _ _ => [1]) ps ts
  Q_models := [⟨35, 10, 0.15, 1000⟩]

/-- A concrete, fully computable instantiation of the abstract transcendental
functions, used by the witnesses. -/
def constMathFns : MathFns where
  fexp := fun x => x
  fpow := fun _ _ => 1
  ftan := fun x => x
  pi := 0

/-- C4: in `anelastic_properties` the temperature used for Q evaluation is
`Tm + dT` when `T - Tm > dT` and `T` otherwise, and `Q_S` is the
fraction-weighted sum `Σ fᵢ * Q0ᵢ * frequency^aᵢ * exp(aᵢ gᵢ Tm / Q_temperature)`;
in particular the spec's single-material example at the solidus yields
`Q_S = 35 * exp(1.5)` (given only that `1^0.15 = 1`). -/
theorem claim4_freezing_and_QS (M : MathFns) (engine : AttenuationModelGoes)
    (Vp Vs P T freq dT : ℚ) :
    ((anelastic_properties M engine Vp Vs P T freq dT).Q_S =
      ((List.zip (engine.model_mixing_function P T) engine.Q_models).map
        (fun fq => fq.1 * (fq.2.Q0 * M.fpow freq fq.2.a
          * M.fexp (fq.2.a * fq.2.g * engine.T_solidus_function P /
              (if T - engine.T_solidus_function P > dT
               then engine.T_solidus_function P + dT else T))))).sum) ∧
    (M.fpow 1 (0.15) = 1 →
      (anelastic_properties M exampleEngine 8000 4500 0 1600 1 0).Q_S
        = 35 * M.fexp (3/2)) := by
  constructor
  · simp only [anelastic_properties, gt_iff_lt]
    rw [foldl_add_eq_sum]
    simp
  · intro hpow
    norm_num at hpow
    simp only [anelastic_properties, exampleEngine]
    norm_num [hpow]

/-- Witness for C4 at a concrete `MathFns`. -/
theorem claim4_witness :
    (anelastic_properties constMathFns exampleEngine 8000 4500 0 1600 1 0).Q_S
      = 35 * constMathFns.fexp (3/2) :=
  (claim4_freezing_and_QS constMathFns exampleEngine 8000 4500 0 1600 1 0).2 rfl

/-! ### C5: the 1/Q_P clamping rule -/

/-- The spec's `invQ_P` formula, written over the fields the result exposes:
`lambda = (4/3)(Vs/Vp)^2`, `invQ_P = (1-lambda)/Q_K + lambda/Q_S`. -/
def invQP_spec (Vp Vs QK QS : ℚ) : ℚ :=
  (1 - 4 / 3 * (Vs / Vp) ^ 2) * (1 / QK) + 4 / 3 * (Vs / Vp) ^ 2 * (1 / QS)

theorem arrInvQP0_getD (Vps Vss QKl QSl : List ℚ) (i : Nat)
    (h1 : i < Vps.length) (h2 : i < Vss.length) (h3 : i < QKl.length)
    (h4 : i < QSl.length) :
    (arrInvQP0 (arrLmda Vss Vps) (arrInv QKl) (arrInv QSl)).getD i 0
      = invQP_spec (Vps.getD i 0) (Vss.getD i 0) (QKl.getD i 0) (QSl.getD i 0) := by
  have hl : i < (arrLmda Vss Vps).length := by
    simp only [arrLmda, List.length_zipWith]; omega
  have hk : i < (QKl.map (fun q => 1 / q)).length := by simpa using h3
  have hs : i < (QSl.map (fun q => 1 / q)).length := by simpa using h4
  simp only [arrInvQP0, arrInv]
  rw [getD_zipWith _ _ _ i 0 0 0
      (by simp only [List.length_zipWith, List.length_map]; omega)
      (by simp only [List.length_zipWith, List.length_map]; omega),
    getD_zipWith _ _ _ i 0 0 0 hl hk, getD_zipWith _ _ _ i 0 0 0 hl hs,
    arrLmda, getD_zipWith _ _ _ i 0 0 0 h2 h1,
    getD_map _ _ i 0 0 h3, getD_map _ _ i 0 0 h4, invQP_spec]

theorem arrQP_getD (X : List ℚ) (i : Nat) (h : i < X.length) :
    (arrQP X).getD i QPval.inf =
      (if X.getD i 0 ≤ 0 then QPval.inf else QPval.val (1 / X.getD i 0)) := by
  rw [arrQP, getD_map _ _ i 0 QPval.inf h]

theorem arrInvQPclamp_getD (X : List ℚ) (i : Nat) (h : i < X.length) :
    (arrInvQPclamp X).getD i 0 = (if X.getD i 0 ≤ 0 then 0 else X.getD i 0) := by
  rw [arrInvQPclamp, getD_map _ _ i 0 0 h]

theorem arrVcorr_getD (Vl invQ tant : List ℚ) (i : Nat) (h1 : i < Vl.length)
    (h2 : i < invQ.length) (h3 : i < tant.length) :
    (arrVcorr Vl invQ tant).getD i 0
      = Vl.getD i 0 * (1 - invQ.getD i 0 / tant.getD i 0) := by
  rw [arrVcorr, getD_zipWith _ _ _ i 0 0 0 h1 (by simp only [List.length_zipWith]; omega),
    getD_zipWith _ _ _ i 0 0 0 h2 h3]

/-- Element-wise behaviour of the clamping tail of the array code path,
for arbitrary `QS`, `QK`, `alpha` lists. -/
theorem arr_clamp_aux (M : MathFns) (Vps Vss QSl QKl alphal : List ℚ) (i : Nat)
    (hi : i < (arrVcorr Vps
      (arrInvQPclamp (arrInvQP0 (arrLmda Vss Vps) (arrInv QKl) (arrInv QSl)))
      (arrTanterm M alphal)).length) :
    (invQP_spec (Vps.getD i 0) (Vss.getD i 0) (QKl.getD i 0) (QSl.getD i 0) < 0 →
      (arrQP (arrInvQP0 (arrLmda Vss Vps) (arrInv QKl) (arrInv QSl))).getD i QPval.inf
          = QPval.inf ∧
      (arrVcorr Vps
        (arrInvQPclamp (arrInvQP0 (arrLmda Vss Vps) (arrInv QKl) (arrInv QSl)))
        (arrTanterm M alphal)).getD i 0 = Vps.getD i 0) ∧
    (0 ≤ invQP_spec (Vps.getD i 0) (Vss.getD i 0) (QKl.getD i 0) (QSl.getD i 0) →
      (arrQP (arrInvQP0 (arrLmda Vss Vps) (arrInv QKl) (arrInv QSl))).getD i QPval.inf
        = npRecip (invQP_spec (Vps.getD i 0) (Vss.getD i 0) (QKl.getD i 0)
            (QSl.getD i 0))) := by
  have hlen := hi
  simp only [arrVcorr, List.length_zipWith, arrInvQPclamp, List.length_map, arrInvQP0,
    arrLmda, arrInv, arrTanterm] at hlen
  have hvps : i < Vps.length := by omega
  have hvss : i < Vss.length := by omega
  have hqk : i < QKl.length := by omega
  have hqs : i < QSl.length := by omega
  have hal : i < alphal.length := by omega
  have hx : i < (arrInvQP0 (arrLmda Vss Vps) (arrInv QKl) (arrInv QSl)).length := by
    simp only [arrInvQP0, arrLmda, arrInv, List.length_zipWith, List.length_map]; omega
  have hxc : i < (arrInvQPclamp
      (arrInvQP0 (arrLmda Vss Vps) (arrInv QKl) (arrInv QSl))).length := by
    simpa [arrInvQPclamp] using hx
  have htan : i < (arrTanterm M alphal).length := by simpa [arrTanterm] using hal
  have hinv := arrInvQP0_getD Vps Vss QKl QSl i hvps hvss hqk hqs
  constructor
  · intro h
    constructor
    · rw [arrQP_getD _ i hx, hinv, if_pos h.le]
    · rw [arrVcorr_getD _ _ _ i hvps hxc htan, arrInvQPclamp_getD _ i hx, hinv,
        if_pos h.le]
      simp
  · intro h
    rw [arrQP_getD _ i hx, hinv, npRecip]
    rcases lt_or_eq_of_le h with h' | h'
    · rw [if_neg (not_le.mpr h'), if_neg (ne_of_gt h')]
    · rw [if_pos h'.symm.le, if_pos h'.symm]

/-- C5: in both code paths, whenever `invQ_P < 0` it is clamped to 0 (so the
`V_P` anelastic correction vanishes and `V_P = elastic_Vp`) and `Q_P` is set to
`inf`; otherwise `Q_P = 1/invQ_P` (with numpy's `1/0 = inf`).  Both paths are
total functions of their inputs: this step raises no exception. -/
theorem claim5_invQP_clamping (M : MathFns) (engine : AttenuationModelGoes)
    (Vp Vs P T freq dT : ℚ) (Vps Vss Ps Ts : List ℚ) (i : Nat)
    (hi : i < (anelastic_properties_arr M engine Vps Vss Ps Ts freq dT).V_P.length) :
    ((invQP_spec Vp Vs (anelastic_properties M engine Vp Vs P T freq dT).Q_K
        (anelastic_properties M engine Vp Vs P T freq dT).Q_S < 0 →
      (anelastic_properties M engine Vp Vs P T freq dT).Q_P = QPval.inf ∧
      (anelastic_properties M engine Vp Vs P T freq dT).V_P = Vp) ∧
     (0 ≤ invQP_spec Vp Vs (anelastic_properties M engine Vp Vs P T freq dT).Q_K
        (anelastic_properties M engine Vp Vs P T freq dT).Q_S →
      (anelastic_properties M engine Vp Vs P T freq dT).Q_P =
        npRecip (invQP_spec Vp Vs
          (anelastic_properties M engine Vp Vs P T freq dT).Q_K
          (anelastic_properties M engine Vp Vs P T freq dT).Q_S))) ∧
    ((invQP_spec (Vps.getD i 0) (Vss.getD i 0)
        ((anelastic_properties_arr M engine Vps Vss Ps Ts freq dT).Q_K.getD i 0)
        ((anelastic_properties_arr M engine Vps Vss Ps Ts freq dT).Q_S.getD i 0) < 0 →
      (anelastic_properties_arr M engine Vps Vss Ps Ts freq dT).Q_P.getD i QPval.inf
          = QPval.inf ∧
      (anelastic_properties_arr M engine Vps Vss Ps Ts freq dT).V_P.getD i 0
          = Vps.getD i 0) ∧
     (0 ≤ invQP_spec (Vps.getD i 0) (Vss.getD i 0)
        ((anelastic_properties_arr M engine Vps Vss Ps Ts freq dT).Q_K.getD i 0)
        ((anelastic_properties_arr M engine Vps Vss Ps Ts freq dT).Q_S.getD i 0) →
      (anelastic_properties_arr M engine Vps Vss Ps Ts freq dT).Q_P.getD i QPval.inf
        = npRecip (invQP_spec (Vps.getD i 0) (Vss.getD i 0)
            ((anelastic_properties_arr M engine Vps Vss Ps Ts freq dT).Q_K.getD i 0)
            ((anelastic_properties_arr M engine Vps Vss Ps Ts freq dT).Q_S.getD i 0)))) := by
  constructor
  · constructor
    · intro h
      simp only [anelastic_properties, invQP_spec] at h ⊢
      rw [if_pos h, if_pos h]
      norm_num
    · intro h
      simp only [anelastic_properties, invQP_spec] at h ⊢
      rw [if_neg (not_lt.mpr h)]
  · exact arr_clamp_aux M Vps Vss _ _ _ i hi

/-- Witness for C5 at a concrete engine and batch of size one. -/
theorem claim5_witness :
    (anelastic_properties constMathFns exampleEngine 8000 4500 0 1600 1 0).Q_P
      = npRecip (invQP_spec 8000 4500
          (anelastic_properties constMathFns exampleEngine 8000 4500 0 1600 1 0).Q_K
          (anelastic_properties constMathFns exampleEngine 8000 4500 0 1600 1 0).Q_S) ∧
    (anelastic_properties_arr constMathFns exampleEngine
        [8000] [4500] [0] [1600] 1 0).Q_P.getD 0 QPval.inf
      = npRecip (invQP_spec (([(8000:ℚ)]).getD 0 0) (([(4500:ℚ)]).getD 0 0)
          ((anelastic_properties_arr constMathFns exampleEngine
            [8000] [4500] [0] [1600] 1 0).Q_K.getD 0 0)
          ((anelastic_properties_arr constMathFns exampleEngine
            [8000] [4500] [0] [1600] 1 0).Q_S.getD 0 0)) :=
  ⟨(claim5_invQP_clamping constMathFns exampleEngine 8000 4500 0 1600 1 0
      [8000] [4500] [0] [1600] 0 (by decide)).1.2
      (by norm_num [anelastic_properties, exampleEngine, constMathFns, invQP_spec]),
   (claim5_invQP_clamping constMathFns exampleEngine 8000 4500 0 1600 1 0
      [8000] [4500] [0] [1600] 0 (by decide)).2.2
      (by norm_num [anelastic_properties_arr, exampleEngine, constMathFns, invQP_spec,
        arrQS, arrQK, arrQTemp, matColsOf, arrInv, arrLmda, arrInvQP0, List.range_succ,
        List.range_zero, List.zip_cons_cons, List.foldl_cons, List.foldl_nil,
        List.zipWith_cons_cons, List.getD])⟩

/-! ### C1: the scalar and array code paths agree element-for-element -/

/-- Length of the array path's accumulation fold. -/
theorem foldl_zipWith_add_length (n : Nat) (G : List ℚ → QModel → List ℚ)
    (hG : ∀ col q, col.length = n → (G col q).length = n) :
    ∀ (mats : List (List ℚ)) (qms : List QModel) (acc : List ℚ),
      (∀ c ∈ mats, c.length = n) → acc.length = n →
      ((List.zip mats qms).foldl
        (fun a p => List.zipWith (· + ·) a (G p.1 p.2)) acc).length = n := by
  intro mats
  induction mats with
  | nil => intro qms acc _ hacc; simpa using hacc
  | cons c cs ih =>
    intro qms acc hc hacc
    cases qms with
    | nil => simpa using hacc
    | cons q qs =>
      have hcn : c.length = n := hc c (List.mem_cons_self _ _)
      have hlen : (List.zipWith (· + ·) acc (G c q)).length = n := by
        simp [List.length_zipWith, hacc, hG c q hcn]
      simp only [List.zip_cons_cons, List.foldl_cons]
      exact ih qs _ (fun x hx => hc x (List.mem_cons_of_mem _ hx)) hlen

/-- Indexing the array path's accumulation fold: if each per-material
contribution list `G col q` agrees at index `i` with a scalar contribution
`g (col i) q`, the whole fold at index `i` equals the scalar fold over the
per-element fraction row. -/
theorem foldl_zipWith_add_getD (n i : Nat) (hi : i < n)
    (G : List ℚ → QModel → List ℚ) (g : ℚ → QModel → ℚ)
    (hG : ∀ col q, col.length = n →
      (G col q).length = n ∧ (G col q).getD i 0 = g (col.getD i 0) q) :
    ∀ (mats : List (List ℚ)) (qms : List QModel) (acc : List ℚ),
      (∀ c ∈ mats, c.length = n) → acc.length = n →
      ((List.zip mats qms).foldl
          (fun a p => List.zipWith (· + ·) a (G p.1 p.2)) acc).getD i 0
        = (List.zip (mats.map (fun c => c.getD i 0)) qms).foldl
            (fun s p => s + g p.1 p.2) (acc.getD i 0) := by
  intro mats
  induction mats with
  | nil => intro qms acc _ _; simp [List.zip]
  | cons c cs ih =>
    intro qms acc hc hacc
    cases qms with
    | nil => simp [List.zip]
    | cons q qs =>
      have hcn : c.length = n := hc c (List.mem_cons_self _ _)
      obtain ⟨hGlen, hGi⟩ := hG c q hcn
      have hlen : (List.zipWith (· + ·) acc (G c q)).length = n := by
        simp [List.length_zipWith, hacc, hGlen]
      have hstep : (List.zipWith (· + ·) acc (G c q)).getD i 0
          = acc.getD i 0 + g (c.getD i 0) q := by
        rw [getD_zipWith _ _ _ i 0 0 0 (by omega) (by omega), hGi]
      simp only [List.zip_cons_cons, List.map_cons, List.foldl_cons]
      rw [ih qs _ (fun x hx => hc x (List.mem_cons_of_mem _ hx)) hlen, hstep]

theorem matColsOf_length_all (fractions : List (List ℚ)) :
    ∀ c ∈ matColsOf fractions, c.length = fractions.length := by
  intro c hc
  simp only [matColsOf, List.mem_map] at hc
  obtain ⟨m, -, rfl⟩ := hc
  simp

/-- Reading one row back out of the material columns. -/
theorem matColsOf_map_getD (fractions : List (List ℚ)) (i : Nat)
    (hi : i < fractions.length) (L : Nat) (hL : (fractions.headD []).length = L)
    (hrow : (fractions.getD i []).length = L) :
    (matColsOf fractions).map (fun c => c.getD i 0) = fractions.getD i [] := by
  simp only [matColsOf, List.map_map]
  have hcomp : ((fun c : List ℚ => c.getD i 0) ∘ fun m => fractions.map
      (fun row => row.getD m 0)) = fun m => (fractions.getD i []).getD m 0 := by
    funext m
    exact getD_map (fun row => row.getD m 0) fractions i [] 0 hi
  rw [hcomp, hL, ← hrow, rangeMap_getD]

/-- Element `i` of the array path's `QS` accumulation is the scalar `QS` fold
over the `i`-th row of the fraction matrix. -/
theorem arrQS_getD (M : MathFns) (qms : List QModel) (freq : ℚ)
    (fractions : List (List ℚ)) (TmArr QTarr : List ℚ) (n i : Nat) (hi : i < n)
    (hfl : fractions.length = n) (hTl : TmArr.length = n) (hQl : QTarr.length = n)
    (hhead : (fractions.headD []).length = qms.length)
    (hrowlen : (fractions.getD i []).length = qms.length) :
    (arrQS M qms freq (matColsOf fractions) TmArr QTarr n).getD i 0
      = (List.zip (fractions.getD i []) qms).foldl
          (fun acc fq => acc + fq.1 * (fq.2.Q0 * M.fpow freq fq.2.a
            * M.fexp (fq.2.a * fq.2.g * (TmArr.getD i 0) / (QTarr.getD i 0)))) 0 := by
  have hmaster := foldl_zipWith_add_getD n i hi
    (fun col q => List.zipWith (fun f tq => f * (q.Q0 * M.fpow freq q.a
      * M.fexp (q.a * q.g * tq.1 / tq.2))) col (List.zip TmArr QTarr))
    (fun f q => f * (q.Q0 * M.fpow freq q.a
      * M.fexp (q.a * q.g * (TmArr.getD i 0) / (QTarr.getD i 0))))
    (by
      intro col q hcol
      constructor
      · simp [List.length_zipWith, List.length_zip, hcol, hTl, hQl]
      · rw [getD_zipWith _ _ _ i 0 (0, 0) 0 (by omega)
          (by simp [List.length_zip]; omega),
          getD_zip _ _ i 0 0 (by omega) (by omega)])
    (matColsOf fractions) qms (List.replicate n 0)
    (fun c hc => by rw [matColsOf_length_all fractions c hc, hfl])
    (by simp)
  rw [getD_replicate n i 0 0 hi,
    matColsOf_map_getD fractions i (by omega) qms.length hhead hrowlen] at hmaster
  exact hmaster

/-- Element `i` of the array path's `QK` accumulation. -/
theorem arrQK_getD (qms : List QModel) (fractions : List (List ℚ)) (n i : Nat)
    (hi : i < n) (hfl : fractions.length = n)
    (hhead : (fractions.headD []).length = qms.length)
    (hrowlen : (fractions.getD i []).length = qms.length) :
    (arrQK qms (matColsOf fractions) n).getD i 0
      = (List.zip (fractions.getD i []) qms).foldl
          (fun acc fq => acc + fq.1 * fq.2.QK) 0 := by
  have hmaster := foldl_zipWith_add_getD n i hi
    (fun col q => col.map (fun f => f * q.QK)) (fun f q => f * q.QK)
    (by
      intro col q hcol
      constructor
      · simp [hcol]
      · rw [getD_map _ _ i 0 0 (by omega)])
    (matColsOf fractions) qms (List.replicate n 0)
    (fun c hc => by rw [matColsOf_length_all fractions c hc, hfl])
    (by simp)
  rw [getD_replicate n i 0 0 hi,
    matColsOf_map_getD fractions i (by omega) qms.length hhead hrowlen] at hmaster
  exact hmaster

/-- Element `i` of the array path's `alpha` accumulation. -/
theorem arrAlpha_getD (qms : List QModel) (fractions : List (List ℚ)) (n i : Nat)
    (hi : i < n) (hfl : fractions.length = n)
    (hhead : (fractions.headD []).length = qms.length)
    (hrowlen : (fractions.getD i []).length = qms.length) :
    (arrAlpha qms (matColsOf fractions) n).getD i 0
      = (List.zip (fractions.getD i []) qms).foldl
          (fun acc fq => acc + fq.1 * fq.2.a) 0 := by
  have hmaster := foldl_zipWith_add_getD n i hi
    (fun col q => col.map (fun f => f * q.a)) (fun f q => f * q.a)
    (by
      intro col q hcol
      constructor
      · simp [hcol]
      · rw [getD_map _ _ i 0 0 (by omega)])
    (matColsOf fractions) qms (List.replicate n 0)
    (fun c hc => by rw [matColsOf_length_all fractions c hc, hfl])
    (by simp)
  rw [getD_replicate n i 0 0 hi,
    matColsOf_map_getD fractions i (by omega) qms.length hhead hrowlen] at hmaster
  exact hmaster

/-- Lengths of the three accumulations. -/
theorem arrQS_length (M : MathFns) (qms : List QModel) (freq : ℚ)
    (fractions : List (List ℚ)) (TmArr QTarr : List ℚ) (n : Nat)
    (hfl : fractions.length = n) (hTl : TmArr.length = n) (hQl : QTarr.length = n) :
    (arrQS M qms freq (matColsOf fractions) TmArr QTarr n).length = n := by
  rw [arrQS]
  exact foldl_zipWith_add_length n
    (fun col q => List.zipWith (fun f tq => f * (q.Q0 * M.fpow freq q.a
      * M.fexp (q.a * q.g * tq.1 / tq.2))) col (List.zip TmArr QTarr))
    (fun col q hcol => by simp [List.length_zipWith, List.length_zip, hcol, hTl, hQl])
    (matColsOf fractions) qms (List.replicate n 0)
    (fun c hc => by rw [matColsOf_length_all fractions c hc, hfl]) (by simp)

theorem arrQK_length (qms : List QModel) (fractions : List (List ℚ)) (n : Nat)
    (hfl : fractions.length = n) :
    (arrQK qms (matColsOf fractions) n).length = n := by
  rw [arrQK]
  exact foldl_zipWith_add_length n (fun col q => col.map (fun f => f * q.QK))
    (fun col q hcol => by simp [hcol])
    (matColsOf fractions) qms (List.replicate n 0)
    (fun c hc => by rw [matColsOf_length_all fractions c hc, hfl]) (by simp)

theorem arrAlpha_length (qms : List QModel) (fractions : List (List ℚ)) (n : Nat)
    (hfl : fractions.length = n) :
    (arrAlpha qms (matColsOf fractions) n).length = n := by
  rw [arrAlpha]
  exact foldl_zipWith_add_length n (fun col q => col.map (fun f => f * q.a))
    (fun col q hcol => by simp [hcol])
    (matColsOf fractions) qms (List.replicate n 0)
    (fun c hc => by rw [matColsOf_length_all fractions c hc, hfl]) (by simp)

/-- C1: for a valid configuration (the polymorphic solidus and mixing
collaborators act element-wise on arrays, and the mixing function returns one
fraction per entry of `Q_models`) and matched-length batched inputs, every
component of the array code path's result at batch element `i` equals the
scalar code path's result at the `i`-th scalar inputs; in particular the
step-3 freezing branch and the step-5 `invQ_P` clamping branch agree
element-for-element between the two code paths. -/
theorem claim1_scalar_array_equivalence (M : MathFns) (engine : AttenuationModelGoes)
    (Vps Vss Ps Ts : List ℚ) (freq dT : ℚ) (i : Nat)
    (hP : Ps.length = Ts.length) (hVp : Vps.length = Ts.length)
    (hVs : Vss.length = Ts.length) (hi : i < Ts.length)
    (hmix : engine.model_mixing_function_arr Ps Ts
      = List.zipWith engine.model_mixing_function Ps Ts)
    (hsol : engine.T_solidus_function_arr Ps = Ps.map engine.T_solidus_function)
    (hfr : ∀ p t, (engine.model_mixing_function p t).length = engine.Q_models.length) :
    ((anelastic_properties_arr M engine Vps Vss Ps Ts freq dT).V_P.getD i 0
        = (anelastic_properties M engine (Vps.getD i 0) (Vss.getD i 0) (Ps.getD i 0)
            (Ts.getD i 0) freq dT).V_P) ∧
    ((anelastic_properties_arr M engine Vps Vss Ps Ts freq dT).V_S.getD i 0
        = (anelastic_properties M engine (Vps.getD i 0) (Vss.getD i 0) (Ps.getD i 0)
            (Ts.getD i 0) freq dT).V_S) ∧
    ((anelastic_properties_arr M engine Vps Vss Ps Ts freq dT).Q_S.getD i 0
        = (anelastic_properties M engine (Vps.getD i 0) (Vss.getD i 0) (Ps.getD i 0)
            (Ts.getD i 0) freq dT).Q_S) ∧
    ((anelastic_properties_arr M engine Vps Vss Ps Ts freq dT).Q_K.getD i 0
        = (anelastic_properties M engine (Vps.getD i 0) (Vss.getD i 0) (Ps.getD i 0)
            (Ts.getD i 0) freq dT).Q_K) ∧
    ((anelastic_properties_arr M engine Vps Vss Ps Ts freq dT).Q_P.getD i QPval.inf
        = (anelastic_properties M engine (Vps.getD i 0) (Vss.getD i 0) (Ps.getD i 0)
            (Ts.getD i 0) freq dT).Q_P) ∧
    ((anelastic_properties_arr M engine Vps Vss Ps Ts freq dT).T_solidus.getD i 0
        = (anelastic_properties M engine (Vps.getD i 0) (Vss.getD i 0) (Ps.getD i 0)
            (Ts.getD i 0) freq dT).T_solidus) := by
  simp only [anelastic_properties_arr]
  set S := anelastic_properties M engine (Vps.getD i 0) (Vss.getD i 0) (Ps.getD i 0)
    (Ts.getD i 0) freq dT with hSdef
  set TmArr := engine.T_solidus_function_arr Ps with hTmArrDef
  set QTarr := arrQTemp dT Ts TmArr with hQTarrDef
  set fracs := engine.model_mixing_function_arr Ps Ts with hfracsDef
  set QSarr := arrQS M engine.Q_models freq (matColsOf fracs) TmArr QTarr Ts.length
    with hQSarrDef
  set QKarr := arrQK engine.Q_models (matColsOf fracs) Ts.length with hQKarrDef
  set alArr := arrAlpha engine.Q_models (matColsOf fracs) Ts.length with halArrDef
  have hiP : i < Ps.length := by omega
  have hiVps : i < Vps.length := by omega
  have hiVss : i < Vss.length := by omega
  have hTlen : TmArr.length = Ts.length := by
    rw [hsol, List.length_map, hP]
  have hTi : TmArr.getD i 0 = engine.T_solidus_function (Ps.getD i 0) := by
    rw [hsol]
    exact getD_map _ _ i 0 0 hiP
  have hQTlen : QTarr.length = Ts.length := by
    rw [hQTarrDef, arrQTemp, List.length_zipWith, hTlen]
    omega
  have hQTi : QTarr.getD i 0 = (if dT < Ts.getD i 0
      - engine.T_solidus_function (Ps.getD i 0)
      then engine.T_solidus_function (Ps.getD i 0) + dT else Ts.getD i 0) := by
    rw [hQTarrDef, arrQTemp, getD_zipWith _ _ _ i 0 0 0 hi (by omega), hTi]
    exact if_congr ⟨fun h => by linarith, fun h => by linarith⟩ rfl rfl
  have hflen : fracs.length = Ts.length := by
    rw [hmix, List.length_zipWith, hP]
    omega
  have hrow : fracs.getD i [] = engine.model_mixing_function (Ps.getD i 0)
      (Ts.getD i 0) := by
    rw [hmix]
    exact getD_zipWith _ _ _ i 0 0 [] hiP hi
  have hhead : (fracs.headD []).length = engine.Q_models.length := by
    rw [headD_eq_getD, hmix,
      getD_zipWith _ _ _ 0 0 0 [] (by omega) (by omega), hfr]
  have hrowlen : (fracs.getD i []).length = engine.Q_models.length := by
    rw [hrow, hfr]
  have hQSlen : QSarr.length = Ts.length := by
    rw [hQSarrDef]
    exact arrQS_length M _ freq fracs TmArr QTarr Ts.length hflen hTlen hQTlen
  have hQKlen : QKarr.length = Ts.length := by
    rw [hQKarrDef]
    exact arrQK_length _ fracs Ts.length hflen
  have hAllen : alArr.length = Ts.length := by
    rw [halArrDef]
    exact arrAlpha_length _ fracs Ts.length hflen
  have hiQS : i < QSarr.length := by omega
  have hiQK : i < QKarr.length := by omega
  have hiAl : i < alArr.length := by omega
  have hQSi : QSarr.getD i 0 = S.Q_S := by
    rw [hQSarrDef,
      arrQS_getD M engine.Q_models freq fracs TmArr QTarr Ts.length i hi hflen hTlen
        hQTlen hhead hrowlen, hrow, hTi, hQTi]
    rfl
  have hQKi : QKarr.getD i 0 = S.Q_K := by
    rw [hQKarrDef,
      arrQK_getD engine.Q_models fracs Ts.length i hi hflen hhead hrowlen, hrow]
    rfl
  have hAli : alArr.getD i 0 = (List.zip
      (engine.model_mixing_function (Ps.getD i 0) (Ts.getD i 0))
      engine.Q_models).foldl (fun acc fq => acc + fq.1 * fq.2.a) 0 := by
    rw [halArrDef,
      arrAlpha_getD engine.Q_models fracs Ts.length i hi hflen hhead hrowlen, hrow]
  have hiQP0 : i < (arrInvQP0 (arrLmda Vss Vps) (arrInv QKarr) (arrInv QSarr)).length := by
    simp only [arrInvQP0, arrLmda, arrInv, List.length_zipWith, List.length_map]
    omega
  have hiclamp : i < (arrInvQPclamp
      (arrInvQP0 (arrLmda Vss Vps) (arrInv QKarr) (arrInv QSarr))).length := by
    simp only [arrInvQPclamp, List.length_map]
    exact hiQP0
  have hitan : i < (arrTanterm M alArr).length := by
    simp only [arrTanterm, List.length_map]
    omega
  have hiinvQS : i < (arrInv QSarr).length := by
    simp only [arrInv, List.length_map]
    omega
  have hX : (arrInvQP0 (arrLmda Vss Vps) (arrInv QKarr) (arrInv QSarr)).getD i 0
      = invQP_spec (Vps.getD i 0) (Vss.getD i 0) S.Q_K S.Q_S := by
    rw [arrInvQP0_getD Vps Vss QKarr QSarr i hiVps hiVss hiQK hiQS, hQKi, hQSi]
  have htan : (arrTanterm M alArr).getD i 0 = 2 * M.ftan (M.pi * ((List.zip
      (engine.model_mixing_function (Ps.getD i 0) (Ts.getD i 0))
      engine.Q_models).foldl (fun acc fq => acc + fq.1 * fq.2.a) 0) / 2) := by
    rw [arrTanterm, getD_map _ _ i 0 0 hiAl, hAli]
  have hSQP : S.Q_P = (if invQP_spec (Vps.getD i 0) (Vss.getD i 0) S.Q_K S.Q_S < 0
      then QPval.inf
      else npRecip (invQP_spec (Vps.getD i 0) (Vss.getD i 0) S.Q_K S.Q_S)) := rfl
  have hSVP : S.V_P = Vps.getD i 0 * (1 -
      (if invQP_spec (Vps.getD i 0) (Vss.getD i 0) S.Q_K S.Q_S < 0 then 0
       else invQP_spec (Vps.getD i 0) (Vss.getD i 0) S.Q_K S.Q_S)
      / (2 * M.ftan (M.pi * ((List.zip
          (engine.model_mixing_function (Ps.getD i 0) (Ts.getD i 0))
          engine.Q_models).foldl (fun acc fq => acc + fq.1 * fq.2.a) 0) / 2))) := rfl
  have hSVS : S.V_S = Vss.getD i 0 * (1 - (1 / S.Q_S)
      / (2 * M.ftan (M.pi * ((List.zip
          (engine.model_mixing_function (Ps.getD i 0) (Ts.getD i 0))
          engine.Q_models).foldl (fun acc fq => acc + fq.1 * fq.2.a) 0) / 2))) := rfl
  refine ⟨?_, ?_, hQSi, hQKi, ?_, ?_⟩
  · rw [arrVcorr_getD _ _ _ i hiVps hiclamp hitan, arrInvQPclamp_getD _ i hiQP0, hX,
      htan, hSVP]
    rcases lt_trichotomy (invQP_spec (Vps.getD i 0) (Vss.getD i 0) S.Q_K S.Q_S) 0
      with hc | hc | hc
    · rw [if_pos hc.le, if_pos hc]
    · rw [if_pos hc.le, if_neg (by rw [hc]; exact lt_irrefl 0), hc]
    · rw [if_neg (not_le.mpr hc), if_neg (not_lt.mpr hc.le)]
  · rw [arrVcorr_getD _ _ _ i hiVss hiinvQS hitan, arrInv, getD_map _ _ i 0 0 hiQS,
      hQSi, htan, hSVS]
  · rw [arrQP_getD _ i hiQP0, hX, hSQP]
    rcases lt_trichotomy (invQP_spec (Vps.getD i 0) (Vss.getD i 0) S.Q_K S.Q_S) 0
      with hc | hc | hc
    · rw [if_pos hc.le, if_pos hc]
    · rw [if_pos hc.le, if_neg (by rw [hc]; exact lt_irrefl 0), npRecip, if_pos hc]
    · rw [if_neg (not_le.mpr hc), if_neg (not_lt.mpr hc.le), npRecip,
        if_neg (ne_of_gt hc)]
  · rw [hTi]
    rfl

/-- Witness for C1: a concrete single-element batch agrees with the scalar call. -/
theorem claim1_witness :
    (anelastic_properties_arr constMathFns exampleEngine
        [8000] [4500] [0] [1600] 1 0).Q_S.getD 0 0
      = (anelastic_properties constMathFns exampleEngine (([(8000:ℚ)]).getD 0 0)
          (([(4500:ℚ)]).getD 0 0) (([(0:ℚ)]).getD 0 0) (([(1600:ℚ)]).getD 0 0)
          1 0).Q_S :=
  (claim1_scalar_array_equivalence constMathFns exampleEngine [8000] [4500] [0] [1600]
    1 0 0 rfl rfl rfl (by decide) rfl rfl (fun _ _ => rfl)).2.2.1

/-! ### Data model of `lookup_tables.py`

A parsed table is a `List (List ℚ)` of rows.  `np.unique` (sorted distinct
values) is embedded as an insertion sort that drops duplicates.  Strings are
embedded as lists of Unicode code points (`List Nat`); Python's `str.lower()`
on the ASCII field names is `pyLower`.  scipy's `interp2d` with linear splines
is modelled from its documented contract: tensor-product piecewise-linear
interpolation whose out-of-range queries use the nearest boundary value
(`fill_value = None` nearest-neighbour extrapolation), and whose `__call__`
sorts its query coordinates.  `_check_bounds` only prints; its messages are
collected in a warning list. -/

/-- One table column (`self.table[:, c]`). -/
def column (tbl : List (List ℚ)) (c : Nat) : List ℚ :=
  tbl.map (fun r => r.getD c 0)

/-- Insert into a sorted-distinct list, dropping duplicates. -/
def insertUniq (x : ℚ) : List ℚ → List ℚ
  | [] => [x]
  | y :: ys =>
    if x < y then x :: y :: ys
    else if x = y then y :: ys
    else y :: insertUniq x ys

/-- `np.unique`: the sorted list of distinct values. -/
def npUnique (l : List ℚ) : List ℚ := l.foldr insertUniq []

/-- `self.pres = np.unique(self.table[:, 0])`. -/
def presOf (tbl : List (List ℚ)) : List ℚ := npUnique (column tbl 0)

/-- `self.temp = np.unique(self.table[:, 1])`. -/
def tempOf (tbl : List (List ℚ)) : List ℚ := npUnique (column tbl 1)

/-- `self.pstep = np.size(self.temp)`. -/
def pstepOf (tbl : List (List ℚ)) : Nat := (tempOf tbl).length

/-- `self.n_uniq_p = len(self.pres)`. -/
def nUniqP (tbl : List (List ℚ)) : Nat := (presOf tbl).length

/-- The slice `self.table[i*pstep : pstep + i*pstep, c]`. -/
def blockRaw (tbl : List (List ℚ)) (pstep i c : Nat) : List ℚ :=
  ((tbl.drop (i * pstep)).take pstep).map (fun r => r.getD c 0)

/-- The assignment `Grid[:, i] = slice`: succeeds when the slice has exactly
`pstep` entries, or one entry (numpy broadcasts it); any other length raises a
shape mismatch `ValueError`. -/
def fitColumn (pstep : Nat) (b : List ℚ) : Option (List ℚ) :=
  if b.length = pstep then some b
  else if b.length = 1 then some (List.replicate pstep (b.headD 0))
  else none

/-- Run a fallible step over a list, stopping at the first failure (a loop in
which any iteration may raise). -/
def traverseOpt {α β : Type} (f : α → Option β) : List α → Option (List β)
  | [] => some []
  | x :: xs =>
    match f x with
    | none => none
    | some y =>
      match traverseOpt f xs with
      | none => none
      | some ys => some (y :: ys)

/-- The grid-filling loop of `SeismicLookupTable.__init__` for the field stored
in table column `c`: one grid column per unique pressure; `none` when numpy
raises on a mismatched slice. -/
def buildCols (tbl : List (List ℚ)) (c : Nat) : Option (List (List ℚ)) :=
  traverseOpt (fun i => fitColumn (pstepOf tbl) (blockRaw tbl (pstepOf tbl) i c))
    (List.range (nUniqP tbl))

/-- `Grid[j, i]` (temperature index `j`, pressure index `i`) out of the list of
grid columns. -/
def gridAt (cols : List (List ℚ)) (j i : Nat) : ℚ := (cols.getD i []).getD j 0

/-- 1-D piecewise-linear interpolation over `(coordinate, value)` pairs with
sorted coordinates, clamping to the boundary values outside the sampled range
(scipy's documented nearest-neighbour extrapolation for `fill_value = None`). -/
def interp1core (x : ℚ) : List (ℚ × ℚ) → ℚ
  | [] => 0
  | [(_, z0)] => z0
  | (x0, z0) :: (x1, z1) :: rest =>
    if x ≤ x0 then z0
    else if x ≤ x1 then z0 + (z1 - z0) * (x - x0) / (x1 - x0)
    else interp1core x ((x1, z1) :: rest)

/-- `interp2d(pres, temp, Grid)` with linear splines, evaluated at one point:
tensor-product piecewise-linear interpolation (interpolate each grid column in
temperature, then interpolate the results in pressure). -/
def interp2dEval (xs ys : List ℚ) (zat : Nat → Nat → ℚ) (x y : ℚ) : ℚ :=
  interp1core x ((List.range xs.length).map (fun i =>
    (xs.getD i 0,
     interp1core y ((List.range ys.length).map (fun j => (ys.getD j 0, zat j i))))))

/-- `np.max` of a nonempty list (0 for the empty list, which numpy rejects). -/
def npMax (l : List ℚ) : ℚ :=
  match l with
  | [] => 0
  | x :: xs => xs.foldl max x

/-- `np.min` of a nonempty list. -/
def npMin (l : List ℚ) : ℚ :=
  match l with
  | [] => 0
  | x :: xs => xs.foldl min x

/-- `_check_bounds`: the console messages it prints, as a list. -/
def check_bounds (input check : List ℚ) (TP : String) : List String :=
  (if input.any (fun v => decide (npMax check < v))
   then [TP ++ " inputs exceed the table range"] else [])
  ++ (if input.any (fun v => decide (v < npMin check))
      then [TP ++ " inputs below the table range"] else [])

/-- Python `str.lower()` on a string of code points, restricted to ASCII
(every field name in this table is ASCII). -/
def pyLower (s : List Nat) : List Nat :=
  s.map (fun c => if 65 ≤ c ∧ c ≤ 90 then c + 32 else c)

/-- The keys of the `self.fields` dictionary with their table column indices:
`"vp" ↦ 2, "vs" ↦ 3, "vp_ani" ↦ 4, "vs_ani" ↦ 5, "vphi" ↦ 6, "density" ↦ 7,
"qs" ↦ 8, "t_sol" ↦ 9` (strings as code-point lists). -/
def fieldColumns : List (List Nat × Nat) :=
  [([118, 112], 2),
   ([118, 115], 3),
   ([118, 112, 95, 97, 110, 105], 4),
   ([118, 115, 95, 97, 110, 105], 5),
   ([118, 112, 104, 105], 6),
   ([100, 101, 110, 115, 105, 116, 121], 7),
   ([113, 115], 8),
   ([116, 95, 115, 111, 108], 9)]

/-- `self.fields[field.lower()][0]`: the column index, or `none` (`KeyError`)
for an unknown field name. -/
def lookupFieldCol (s : List Nat) : Option Nat :=
  (fieldColumns.find? (fun e => e.1 == pyLower s)).map (fun e => e.2)

/-- `SeismicLookupTable.interp_points`.  The bound warnings are printed first;
then the field lookup (`KeyError` for an unknown name, modelled as `none`);
then `out[i] = grid(press[i], temps[i])` for `i < len(press)`, which raises
`IndexError` (modelled as `none`) when `temps` is shorter than `press` and
silently ignores surplus temperatures. -/
def interp_points (tbl : List (List ℚ)) (press temps : List ℚ) (field : List Nat) :
    List String × Option (List ℚ) :=
  let warnings := check_bounds press (presOf tbl) "pressure"
    ++ check_bounds temps (tempOf tbl) "temperature"
  match lookupFieldCol field with
  | none => (warnings, none)
  | some c =>
    if temps.length < press.length then (warnings, none)
    else
      (warnings, some ((List.range press.length).map (fun i =>
        interp2dEval (presOf tbl) (tempOf tbl)
          (gridAt ((buildCols tbl c).getD []))
          (press.getD i 0) (temps.getD i 0))))

/-- `SeismicLookupTable.interp_grid`: dense output over the Cartesian product;
`interp2d.__call__` sorts its query coordinates first. -/
def interp_grid (tbl : List (List ℚ)) (press temps : List ℚ) (field : List Nat) :
    List String × Option (List (List ℚ)) :=
  let warnings := check_bounds press (presOf tbl) "pressure"
    ++ check_bounds temps (tempOf tbl) "temperature"
  match lookupFieldCol field with
  | none => (warnings, none)
  | some c =>
    let xs := List.insertionSort (· ≤ ·) press
    let ys := List.insertionSort (· ≤ ·) temps
    (warnings, some (ys.map (fun t => xs.map (fun p =>
      interp2dEval (presOf tbl) (tempOf tbl)
        (gridAt ((buildCols tbl c).getD [])) p t))))

/-- `linear_interp_1d`: scipy `interp1d` over the two samples `(c1, vals1)`,
`(c2, vals2)` with `fill_value="extrapolate"` — the unique line through the two
points, evaluated at `cnew`, component-wise. -/
def linear_interp_1d (vals1 vals2 : List ℚ) (c1 c2 cnew : ℚ) : List ℚ :=
  (List.zip vals1 vals2).map
    (fun v => v.1 + (v.2 - v.1) * (cnew - c1) / (c2 - c1))

/-! ### Supporting lemmas for the lookup-table embedding -/

theorem getD_range (n i d : Nat) (h : i < n) : (List.range n).getD i d = i := by
  rw [List.getD_eq_getElem?_getD, List.getElem?_range h]
  rfl

theorem getD_take {α : Type} (l : List α) (n i : Nat) (d : α) (h : i < n) :
    (l.take n).getD i d = l.getD i d := by
  rw [List.getD_eq_getElem?_getD, List.getD_eq_getElem?_getD, List.getElem?_take]
  simp [h]

theorem getD_drop {α : Type} (l : List α) (n i : Nat) (d : α) :
    (l.drop n).getD i d = l.getD (n + i) d := by
  rw [List.getD_eq_getElem?_getD, List.getD_eq_getElem?_getD, List.getElem?_drop]

theorem getD_mem {α : Type} (l : List α) (i : Nat) (d : α) (h : i < l.length) :
    l.getD i d ∈ l := by
  rw [List.getD_eq_getElem _ _ h]
  exact List.getElem_mem h

theorem foldl_min_le_init : ∀ (xs : List ℚ) (x : ℚ), xs.foldl min x ≤ x
  | [], _ => le_rfl
  | y :: ys, x => le_trans (foldl_min_le_init ys (min x y)) (min_le_left x y)

theorem foldl_min_le_mem : ∀ (xs : List ℚ) (x a : ℚ), a ∈ xs → xs.foldl min x ≤ a
  | [], _, a, ha => by simp at ha
  | y :: ys, x, a, ha => by
    rcases List.mem_cons.mp ha with rfl | ha'
    · exact le_trans (foldl_min_le_init ys (min x a)) (min_le_right x a)
    · exact foldl_min_le_mem ys (min x y) a ha'

theorem init_le_foldl_max : ∀ (xs : List ℚ) (x : ℚ), x ≤ xs.foldl max x
  | [], _ => le_rfl
  | y :: ys, x => le_trans (le_max_left x y) (init_le_foldl_max ys (max x y))

theorem mem_le_foldl_max : ∀ (xs : List ℚ) (x a : ℚ), a ∈ xs → a ≤ xs.foldl max x
  | [], _, a, ha => by simp at ha
  | y :: ys, x, a, ha => by
    rcases List.mem_cons.mp ha with rfl | ha'
    · exact le_trans (le_max_right x a) (init_le_foldl_max ys (max x a))
    · exact mem_le_foldl_max ys (max x y) a ha'

theorem npMin_le (l : List ℚ) (a : ℚ) (ha : a ∈ l) : npMin l ≤ a := by
  cases l with
  | nil => simp at ha
  | cons x xs =>
    rcases List.mem_cons.mp ha with rfl | ha'
    · exact foldl_min_le_init xs a
    · exact foldl_min_le_mem xs x a ha'

theorem le_npMax (l : List ℚ) (a : ℚ) (ha : a ∈ l) : a ≤ npMax l := by
  cases l with
  | nil => simp at ha
  | cons x xs =>
    rcases List.mem_cons.mp ha with rfl | ha'
    · exact init_le_foldl_max xs a
    · exact mem_le_foldl_max xs x a ha'

theorem mem_insertUniq (x z : ℚ) : ∀ l : List ℚ, z ∈ insertUniq x l ↔ z = x ∨ z ∈ l
  | [] => by simp [insertUniq]
  | y :: ys => by
    rw [insertUniq]
    split_ifs with h1 h2
    · simp only [List.mem_cons]
    · subst h2
      simp only [List.mem_cons]
      tauto
    · simp only [List.mem_cons, mem_insertUniq x z ys]
      tauto

theorem pairwise_insertUniq (x : ℚ) :
    ∀ l : List ℚ, List.Pairwise (· < ·) l → List.Pairwise (· < ·) (insertUniq x l)
  | [], _ => by simp [insertUniq]
  | y :: ys, h => by
    have hy := (List.pairwise_cons.mp h).1
    have hys := (List.pairwise_cons.mp h).2
    rw [insertUniq]
    split_ifs with h1 h2
    · refine List.pairwise_cons.mpr ⟨?_, h⟩
      intro z hz
      rcases List.mem_cons.mp hz with rfl | hz'
      · exact h1
      · exact lt_trans h1 (hy z hz')
    · exact h
    · refine List.pairwise_cons.mpr ⟨?_, pairwise_insertUniq x ys hys⟩
      intro z hz
      rcases (mem_insertUniq x z ys).mp hz with rfl | hz'
      · exact lt_of_le_of_ne (not_lt.mp h1) (fun hyx => h2 hyx.symm)
      · exact hy z hz'

theorem pairwise_npUnique (l : List ℚ) : List.Pairwise (· < ·) (npUnique l) := by
  rw [npUnique]
  induction l with
  | nil => simp
  | cons x xs ih => exact pairwise_insertUniq x _ ih

/-- Piecewise-linear interpolation is interpolating: at the `k`-th sampled
coordinate it returns the `k`-th sampled value exactly. -/
theorem interp1core_node : ∀ (l : List (ℚ × ℚ)) (k : Nat), k < l.length →
    List.Pairwise (· < ·) (l.map Prod.fst) →
    interp1core (l.getD k (0, 0)).1 l = (l.getD k (0, 0)).2
  | [], k, hk, _ => by simp at hk
  | [(x0, z0)], 0, _, _ => rfl
  | [(x0, z0)], (k+1), hk, _ => by simp at hk
  | (x0, z0) :: (x1, z1) :: rest, 0, _, _ => by
    simp only [List.getD_cons_zero, interp1core]
    rw [if_pos le_rfl]
  | (x0, z0) :: (x1, z1) :: rest, (k+1), hk, hp => by
    simp only [List.map_cons] at hp
    have hhead : ∀ b ∈ x1 :: rest.map Prod.fst, x0 < b := (List.pairwise_cons.mp hp).1
    have htail0 : List.Pairwise (· < ·) (x1 :: rest.map Prod.fst) :=
      (List.pairwise_cons.mp hp).2
    have htail : List.Pairwise (· < ·) (((x1, z1) :: rest).map Prod.fst) := by
      simpa only [List.map_cons] using htail0
    have hk' : k < ((x1, z1) :: rest).length := by simpa using hk
    have hxmem : (((x1, z1) :: rest).getD k (0, 0)).1
        ∈ x1 :: rest.map Prod.fst := by
      simpa only [List.map_cons] using
        List.mem_map_of_mem Prod.fst (getD_mem _ k (0, 0) hk')
    have hx0 : x0 < (((x1, z1) :: rest).getD k (0, 0)).1 := hhead _ hxmem
    simp only [List.getD_cons_succ, interp1core]
    rw [if_neg (not_le.mpr hx0)]
    cases k with
    | zero =>
      have h01 : x0 < x1 := hhead x1 (by simp)
      have hne : x1 - x0 ≠ 0 := fun hc => absurd (by linarith : x0 = x1) (ne_of_lt h01)
      simp only [List.getD_cons_zero]
      rw [if_pos le_rfl, mul_div_assoc, div_self hne, mul_one]
      ring
    | succ j =>
      have hj' : j < rest.length := by simpa using hk'
      have htailhead : ∀ b ∈ rest.map Prod.fst, x1 < b :=
        (List.pairwise_cons.mp htail0).1
      have hx1 : x1 < (rest.getD j (0, 0)).1 :=
        htailhead _ (List.mem_map_of_mem Prod.fst (getD_mem _ j (0, 0) hj'))
      simp only [List.getD_cons_succ]
      rw [if_neg (by simpa using not_le.mpr hx1)]
      have hrec := interp1core_node ((x1, z1) :: rest) (j+1) (by simpa using hk) htail
      simpa using hrec

/-- Below the whole sampled range, interpolation returns the first sample. -/
theorem interp1core_low : ∀ (l : List (ℚ × ℚ)) (x : ℚ),
    (∀ p ∈ l, x ≤ p.1) → interp1core x l = (l.headD (0, 0)).2
  | [], _, _ => rfl
  | [(x0, z0)], x, _ => rfl
  | (x0, z0) :: (x1, z1) :: rest, x, hx => by
    simp only [interp1core, List.headD_cons]
    rw [if_pos (hx (x0, z0) (List.mem_cons_self _ _))]

/-- Above the whole sampled range, interpolation returns the last sample. -/
theorem interp1core_high : ∀ (l : List (ℚ × ℚ)) (x : ℚ),
    List.Pairwise (· < ·) (l.map Prod.fst) → (∀ p ∈ l, p.1 ≤ x) →
    interp1core x l = (l.getD (l.length - 1) (0, 0)).2
  | [], _, _, _ => rfl
  | [(x0, z0)], x, _, _ => rfl
  | (x0, z0) :: (x1, z1) :: rest, x, hp, hx => by
    simp only [List.map_cons] at hp
    have hhead : ∀ b ∈ x1 :: rest.map Prod.fst, x0 < b := (List.pairwise_cons.mp hp).1
    have htail0 : List.Pairwise (· < ·) (x1 :: rest.map Prod.fst) :=
      (List.pairwise_cons.mp hp).2
    have htail : List.Pairwise (· < ·) (((x1, z1) :: rest).map Prod.fst) := by
      simpa only [List.map_cons] using htail0
    have h01 : x0 < x1 := hhead x1 (by simp)
    have hx1 : x1 ≤ x := hx (x1, z1) (by simp)
    simp only [interp1core]
    rw [if_neg (not_le.mpr (lt_of_lt_of_le h01 hx1))]
    cases rest with
    | nil =>
      by_cases hle : x ≤ x1
      · have hxx1 : x = x1 := le_antisymm hle hx1
        have hne : x1 - x0 ≠ 0 := fun hc => absurd (by linarith : x0 = x1) (ne_of_lt h01)
        rw [if_pos hle, hxx1, mul_div_assoc, div_self hne, mul_one]
        show z0 + (z1 - z0) = z1
        ring
      · rw [if_neg hle]
        rfl
    | cons r rs =>
      have h12 : x1 < r.1 := by
        have hth : ∀ b ∈ (r :: rs).map Prod.fst, x1 < b := by
          simpa only [List.map_cons] using (List.pairwise_cons.mp htail0).1
        exact hth r.1 (by simp)
      have hxr : r.1 ≤ x := hx r (by simp)
      rw [if_neg (not_le.mpr (lt_of_lt_of_le h12 hxr))]
      have hrec := interp1core_high ((x1, z1) :: r :: rs) x htail
        (fun p hp' => hx p (List.mem_cons_of_mem _ hp'))
      simpa using hrec

/-- Clamp a query coordinate to the sampled range. -/
def clampTo (l : List ℚ) (x : ℚ) : ℚ := min (max x (npMin l)) (npMax l)

/-- Interpolation treats an out-of-range query exactly as its clamp to the
nearest sampled bound. -/
theorem interp1core_clamp (l : List (ℚ × ℚ)) (x : ℚ) (hne : l ≠ [])
    (hp : List.Pairwise (· < ·) (l.map Prod.fst)) :
    interp1core x l = interp1core (clampTo (l.map Prod.fst) x) l := by
  have hnemap : l.map Prod.fst ≠ [] := by
    cases l with
    | nil => exact absurd rfl hne
    | cons p ps => simp
  have hminmax : npMin (l.map Prod.fst) ≤ npMax (l.map Prod.fst) := by
    cases l with
    | nil => exact absurd rfl hne
    | cons p ps =>
      exact le_trans (npMin_le _ p.1 (by simp)) (le_npMax _ p.1 (by simp))
  rcases lt_or_le x (npMin (l.map Prod.fst)) with hlow | hge
  · have hcl : clampTo (l.map Prod.fst) x = npMin (l.map Prod.fst) := by
      rw [clampTo, max_eq_right hlow.le, min_eq_left hminmax]
    rw [hcl]
    rw [interp1core_low l x (fun p hp' => le_of_lt (lt_of_lt_of_le hlow
      (npMin_le _ p.1 (List.mem_map_of_mem Prod.fst hp')))),
      interp1core_low l _ (fun p hp' => npMin_le _ p.1
        (List.mem_map_of_mem Prod.fst hp'))]
  · rcases le_or_lt x (npMax (l.map Prod.fst)) with hle | hhigh
    · have hcl : clampTo (l.map Prod.fst) x = x := by
        rw [clampTo, max_eq_left hge, min_eq_left hle]
      rw [hcl]
    · have hcl : clampTo (l.map Prod.fst) x = npMax (l.map Prod.fst) := by
        rw [clampTo, max_eq_left (le_trans hminmax hhigh.le), min_eq_right hhigh.le]
      rw [hcl]
      rw [interp1core_high l x hp (fun p hp' => le_of_lt (lt_of_le_of_lt
          (le_npMax _ p.1 (List.mem_map_of_mem Prod.fst hp')) hhigh)),
        interp1core_high l _ hp (fun p hp' => le_npMax _ p.1
          (List.mem_map_of_mem Prod.fst hp'))]

theorem interp2d_inner_fst (ys : List ℚ) (zat : Nat → Nat → ℚ) (i' : Nat) :
    ((List.range ys.length).map (fun j' => (ys.getD j' 0, zat j' i'))).map Prod.fst
      = ys := by
  rw [List.map_map]
  have hcomp : (Prod.fst ∘ fun j' => (ys.getD j' 0, zat j' i'))
      = fun j' => ys.getD j' 0 := rfl
  rw [hcomp, rangeMap_getD]

/-- 2-D interpolation reproduces the stored grid value at a grid node. -/
theorem interp2dEval_node (xs ys : List ℚ) (zat : Nat → Nat → ℚ) (i j : Nat)
    (hx : List.Pairwise (· < ·) xs) (hy : List.Pairwise (· < ·) ys)
    (hi : i < xs.length) (hj : j < ys.length) :
    interp2dEval xs ys zat (xs.getD i 0) (ys.getD j 0) = zat j i := by
  rw [interp2dEval]
  have hinner : ∀ i' : Nat, interp1core (ys.getD j 0)
      ((List.range ys.length).map (fun j' => (ys.getD j' 0, zat j' i'))) = zat j i' := by
    intro i'
    have hL : ((List.range ys.length).map
        (fun j' => (ys.getD j' 0, zat j' i'))).getD j (0, 0)
        = (ys.getD j 0, zat j i') := by
      rw [getD_map _ _ j 0 (0, 0) (by simpa using hj), getD_range _ _ _ hj]
    have hnode := interp1core_node ((List.range ys.length).map
        (fun j' => (ys.getD j' 0, zat j' i'))) j (by simpa using hj)
      (by rw [interp2d_inner_fst]; exact hy)
    rw [hL] at hnode
    exact hnode
  have hLo : ((List.range xs.length).map (fun i' => (xs.getD i' 0,
      interp1core (ys.getD j 0) ((List.range ys.length).map
        (fun j' => (ys.getD j' 0, zat j' i')))))).getD i (0, 0)
      = (xs.getD i 0, interp1core (ys.getD j 0) ((List.range ys.length).map
          (fun j' => (ys.getD j' 0, zat j' i)))) := by
    rw [getD_map _ _ i 0 (0, 0) (by simpa using hi), getD_range _ _ _ hi]
  have hfsto : ((List.range xs.length).map (fun i' => (xs.getD i' 0,
      interp1core (ys.getD j 0) ((List.range ys.length).map
        (fun j' => (ys.getD j' 0, zat j' i')))))).map Prod.fst = xs := by
    rw [List.map_map]
    have hcomp : (Prod.fst ∘ fun i' => (xs.getD i' 0,
        interp1core (ys.getD j 0) ((List.range ys.length).map
          (fun j' => (ys.getD j' 0, zat j' i')))))
        = fun i' => xs.getD i' 0 := rfl
    rw [hcomp, rangeMap_getD]
  have hnode := interp1core_node ((List.range xs.length).map (fun i' => (xs.getD i' 0,
      interp1core (ys.getD j 0) ((List.range ys.length).map
        (fun j' => (ys.getD j' 0, zat j' i')))))) i (by simpa using hi)
    (by rw [hfsto]; exact hx)
  rw [hLo] at hnode
  exact hnode.trans (hinner i)

/-- 2-D interpolation treats out-of-range coordinates exactly as their clamps
to the nearest sampled bounds. -/
theorem interp2dEval_clamp (xs ys : List ℚ) (zat : Nat → Nat → ℚ) (x y : ℚ)
    (hx : List.Pairwise (· < ·) xs) (hy : List.Pairwise (· < ·) ys)
    (hxs : xs ≠ []) (hys : ys ≠ []) :
    interp2dEval xs ys zat x y
      = interp2dEval xs ys zat (clampTo xs x) (clampTo ys y) := by
  rw [interp2dEval, interp2dEval]
  have hinner : ∀ i' ∈ List.range xs.length,
      (fun i' => (xs.getD i' 0, interp1core y ((List.range ys.length).map
        (fun j' => (ys.getD j' 0, zat j' i'))))) i'
      = (fun i' => (xs.getD i' 0, interp1core (clampTo ys y)
          ((List.range ys.length).map (fun j' => (ys.getD j' 0, zat j' i'))))) i' := by
    intro i' _
    have hne : ((List.range ys.length).map
        (fun j' => (ys.getD j' 0, zat j' i'))) ≠ [] := by
      simp only [ne_eq, List.map_eq_nil_iff, List.range_eq_nil]
      exact fun hc => hxs (by exact absurd hc (by
        simpa [List.length_eq_zero] using hys))
    have hclamp := interp1core_clamp ((List.range ys.length).map
        (fun j' => (ys.getD j' 0, zat j' i'))) y hne
      (by rw [interp2d_inner_fst]; exact hy)
    rw [interp2d_inner_fst] at hclamp
    simp only [hclamp]
  rw [List.map_congr_left hinner]
  have hneo : ((List.range xs.length).map (fun i' => (xs.getD i' 0,
      interp1core (clampTo ys y) ((List.range ys.length).map
        (fun j' => (ys.getD j' 0, zat j' i')))))) ≠ [] := by
    simp only [ne_eq, List.map_eq_nil_iff, List.range_eq_nil]
    simpa [List.length_eq_zero] using hxs
  have hfsto : ((List.range xs.length).map (fun i' => (xs.getD i' 0,
      interp1core (clampTo ys y) ((List.range ys.length).map
        (fun j' => (ys.getD j' 0, zat j' i')))))).map Prod.fst = xs := by
    rw [List.map_map]
    have hcomp : (Prod.fst ∘ fun i' => (xs.getD i' 0,
        interp1core (clampTo ys y) ((List.range ys.length).map
          (fun j' => (ys.getD j' 0, zat j' i')))))
        = fun i' => xs.getD i' 0 := rfl
    rw [hcomp, rangeMap_getD]
  have hclampo := interp1core_clamp ((List.range xs.length).map (fun i' =>
      (xs.getD i' 0, interp1core (clampTo ys y) ((List.range ys.length).map
        (fun j' => (ys.getD j' 0, zat j' i')))))) x hneo (by rw [hfsto]; exact hx)
  rw [hfsto] at hclampo
  exact hclampo

/-! ### C2: what the grid-filling loop accepts -/

theorem traverseOpt_isSome {α β : Type} (f : α → Option β) :
    ∀ l : List α, (traverseOpt f l).isSome = l.all (fun x => (f x).isSome)
  | [] => rfl
  | x :: xs => by
    rw [traverseOpt]
    cases hfx : f x with
    | none => simp [hfx]
    | some y =>
      cases hxs : traverseOpt f xs with
      | none =>
        have := traverseOpt_isSome f xs
        rw [hxs] at this
        simp [hfx, ← this]
      | some ys =>
        have := traverseOpt_isSome f xs
        rw [hxs] at this
        simp [hfx, ← this]

theorem traverseOpt_map {α β : Type} (f : α → Option β) (g : α → β) :
    ∀ l : List α, (∀ x ∈ l, f x = some (g x)) → traverseOpt f l = some (l.map g)
  | [], _ => rfl
  | x :: xs, h => by
    rw [traverseOpt, h x (List.mem_cons_self _ _),
      traverseOpt_map f g xs (fun z hz => h z (List.mem_cons_of_mem _ hz))]
    rfl

theorem fitColumn_isSome (pstep : Nat) (b : List ℚ) :
    (fitColumn pstep b).isSome = true ↔ (b.length = pstep ∨ b.length = 1) := by
  rw [fitColumn]
  split_ifs with h1 h2
  · simp [h1]
  · simp [h1, h2]
  · simp [h1, h2]

theorem blockRaw_length (tbl : List (List ℚ)) (pstep i c : Nat) :
    (blockRaw tbl pstep i c).length = min pstep (tbl.length - i * pstep) := by
  simp [blockRaw, List.length_take, List.length_drop]

/-- The grid-filling loop succeeds iff every pressure-block slice has either
exactly `pstep` entries or a single entry (which numpy broadcasts). -/
theorem buildCols_isSome_iff (tbl : List (List ℚ)) (c : Nat) :
    (buildCols tbl c).isSome = true ↔
      ∀ i, i < nUniqP tbl →
        ((blockRaw tbl (pstepOf tbl) i c).length = pstepOf tbl ∨
         (blockRaw tbl (pstepOf tbl) i c).length = 1) := by
  rw [buildCols, traverseOpt_isSome, List.all_eq_true]
  constructor
  · intro h i hi
    exact (fitColumn_isSome _ _).mp (h i (List.mem_range.mpr hi))
  · intro h i hi
    exact (fitColumn_isSome _ _).mpr (h i (List.mem_range.mp hi))

/-- With the row-count invariant `len(table) = n_uniq_p * pstep`, every block
slice is full and the construction succeeds, yielding exactly the blocks. -/
theorem buildCols_full (tbl : List (List ℚ)) (c : Nat)
    (hrows : tbl.length = nUniqP tbl * pstepOf tbl) :
    buildCols tbl c = some ((List.range (nUniqP tbl)).map
      (fun i => blockRaw tbl (pstepOf tbl) i c)) := by
  rw [buildCols]
  refine traverseOpt_map _ _ _ ?_
  intro i hi
  have hi' : i < nUniqP tbl := List.mem_range.mp hi
  have hfull : (blockRaw tbl (pstepOf tbl) i c).length = pstepOf tbl := by
    rw [blockRaw_length, hrows]
    have hmul : i * pstepOf tbl + pstepOf tbl ≤ nUniqP tbl * pstepOf tbl := by
      calc i * pstepOf tbl + pstepOf tbl = (i + 1) * pstepOf tbl := by ring
        _ ≤ nUniqP tbl * pstepOf tbl := Nat.mul_le_mul_right _ (by omega)
    omega
  rw [fitColumn, if_pos hfull]

/-- C2 (amended): the constructor performs no `MalformedTableError`
validation.  The grid-filling loop raises (a numpy shape `ValueError`) iff some
pressure-block slice has a length other than `pstep` or 1 — the same condition
for every field column; in particular every table with
`len(table) = n_uniq_p * n_uniq_t` constructs successfully, but so do tables
violating the row-count or temperature-sequence conditions (mis-gridded
silently), so failure is not equivalent to the claimed conditions. -/
theorem claim2_construction (tbl : List (List ℚ)) (c : Nat) :
    ((buildCols tbl c).isSome = true ↔
      ∀ i, i < nUniqP tbl →
        ((blockRaw tbl (pstepOf tbl) i c).length = pstepOf tbl ∨
         (blockRaw tbl (pstepOf tbl) i c).length = 1)) ∧
    ((buildCols tbl c).isSome = (buildCols tbl 2).isSome) ∧
    (tbl.length = nUniqP tbl * pstepOf tbl →
      buildCols tbl c = some ((List.range (nUniqP tbl)).map
        (fun i => blockRaw tbl (pstepOf tbl) i c))) := by
  refine ⟨buildCols_isSome_iff tbl c, ?_, buildCols_full tbl c⟩
  have hblock : ∀ i, (blockRaw tbl (pstepOf tbl) i c).length
      = (blockRaw tbl (pstepOf tbl) i 2).length := by
    intro i
    rw [blockRaw_length, blockRaw_length]
  rw [Bool.eq_iff_iff, buildCols_isSome_iff tbl c, buildCols_isSome_iff tbl 2]
  constructor
  · intro h i hi
    rw [← hblock i]
    exact h i hi
  · intro h i hi
    rw [hblock i]
    exact h i hi

/-- A concrete 10-column table used by witnesses and counterexamples:
two unique pressures (0, 1e8 as an integer literal) and two unique temperatures
(500, 1000), four
rows, in the documented ordering. -/
def exampleTable : List (List ℚ) :=
  [[0, 500, 11, 21, 31, 41, 51, 61, 71, 81],
   [0, 1000, 12, 22, 32, 42, 52, 62, 72, 82],
   [100000000, 500, 13, 23, 33, 43, 53, 63, 73, 83],
   [100000000, 1000, 14, 24, 34, 44, 54, 64, 74, 84]]

/-- A malformed table: 4 rows but `n_uniq_p * n_uniq_t = 1 * 3 = 3` (a
duplicated `(P, T)` row), whose construction nevertheless succeeds. -/
def c2Table : List (List ℚ) :=
  [[0, 500, 1, 1, 1, 1, 1, 1, 1, 1],
   [0, 500, 2, 2, 2, 2, 2, 2, 2, 2],
   [0, 1000, 3, 3, 3, 3, 3, 3, 3, 3],
   [0, 1500, 4, 4, 4, 4, 4, 4, 4, 4]]

/-- C2 counterexample: a table whose row count differs from
`n_uniq_p * n_uniq_t` (and whose temperature sequences differ between blocks),
yet construction succeeds — no `MalformedTableError` is raised. -/
theorem claim2_counterexample :
    (buildCols c2Table 2).isSome = true ∧
    c2Table.length ≠ nUniqP c2Table * pstepOf c2Table := by
  constructor
  · decide
  · decide

/-- Witness for C2 (amended): the well-formed example table satisfies the
row-count invariant and constructs successfully. -/
theorem claim2_witness :
    buildCols exampleTable 2 = some ((List.range (nUniqP exampleTable)).map
      (fun i => blockRaw exampleTable (pstepOf exampleTable) i 2)) :=
  (claim2_construction exampleTable 2).2.2 (by decide)

/-! ### C7: querying at a grid node returns the stored value exactly -/

theorem blockRaw_getD (tbl : List (List ℚ)) (p i c j : Nat) (hj : j < p)
    (hlen : i * p + j < tbl.length) :
    (blockRaw tbl p i c).getD j 0 = (tbl.getD (i * p + j) []).getD c 0 := by
  rw [blockRaw, getD_map _ _ j [] 0 (by
      rw [List.length_take, List.length_drop]
      omega),
    getD_take _ _ _ _ hj, getD_drop]

/-- With the row-count invariant, `Grid[j, i]` is the table entry at row
`i * pstep + j`, column `c`. -/
theorem gridAt_full (tbl : List (List ℚ)) (c i j : Nat)
    (hrows : tbl.length = nUniqP tbl * pstepOf tbl)
    (hi : i < nUniqP tbl) (hj : j < pstepOf tbl) :
    gridAt ((buildCols tbl c).getD []) j i
      = (tbl.getD (i * pstepOf tbl + j) []).getD c 0 := by
  rw [buildCols_full tbl c hrows, Option.getD_some, gridAt,
    getD_map _ _ i 0 [] (by simpa using hi), getD_range _ _ _ hi]
  refine blockRaw_getD tbl _ i c j hj ?_
  rw [hrows]
  have hmul : i * pstepOf tbl + pstepOf tbl ≤ nUniqP tbl * pstepOf tbl := by
    calc i * pstepOf tbl + pstepOf tbl = (i + 1) * pstepOf tbl := by ring
      _ ≤ nUniqP tbl * pstepOf tbl := Nat.mul_le_mul_right _ (by omega)
  omega

/-- C7: for every loaded table satisfying the row-count invariant and every
grid node `(pres[i], temp[j])`, `interp_points([pres[i]], [temp[j]], field)`
returns exactly the stored grid value `Grid[j, i]`, which is the value taken
from table row `i * pstep + j` in the field's column. -/
theorem claim7_node_exact (tbl : List (List ℚ)) (field : List Nat) (c i j : Nat)
    (hfield : lookupFieldCol field = some c)
    (hrows : tbl.length = nUniqP tbl * pstepOf tbl)
    (hi : i < nUniqP tbl) (hj : j < pstepOf tbl) :
    (interp_points tbl [(presOf tbl).getD i 0] [(tempOf tbl).getD j 0] field).2
      = some [gridAt ((buildCols tbl c).getD []) j i] ∧
    gridAt ((buildCols tbl c).getD []) j i
      = (tbl.getD (i * pstepOf tbl + j) []).getD c 0 := by
  refine ⟨?_, gridAt_full tbl c i j hrows hi hj⟩
  rw [interp_points, hfield]
  have hr1 : List.range 1 = [0] := rfl
  simp only [List.length_singleton, lt_irrefl, if_false, hr1, List.map_cons,
    List.map_nil, List.getD_cons_zero]
  rw [interp2dEval_node (presOf tbl) (tempOf tbl) _ i j
    (pairwise_npUnique _) (pairwise_npUnique _) hi hj]

/-- Witness for C7 on the example table: the node `(pres[1], temp[0])` of the
`vp` field reproduces the stored value. -/
theorem claim7_witness :
    (interp_points exampleTable [(presOf exampleTable).getD 1 0]
        [(tempOf exampleTable).getD 0 0] [118, 112]).2
      = some [gridAt ((buildCols exampleTable 2).getD []) 0 1] :=
  (claim7_node_exact exampleTable [118, 112] 2 1 0 (by decide) (by decide)
    (by decide) (by decide)).1

/-! ### C6: out-of-range queries warn, never raise, and clamp -/

theorem mem_check_bounds_iff (input check : List ℚ) (TP msg : String) :
    msg ∈ check_bounds input check TP ↔
      ((msg = TP ++ " inputs exceed the table range" ∧ ∃ v ∈ input, npMax check < v) ∨
       (msg = TP ++ " inputs below the table range" ∧ ∃ v ∈ input, v < npMin check)) := by
  rw [check_bounds]
  split_ifs with h1 h2 h2 <;>
    simp only [List.any_eq_true, decide_eq_true_eq] at h1 h2 <;>
    simp [List.mem_append, h1, h2]

/-- C6: whenever any pressure or temperature input of an `interp_points` or
`interp_grid` query lies outside the table's sampled axis range, a non-fatal
warning is reported (the high and low violations for each axis are reported
independently), no exception is raised — the query still returns values — and
every returned value is computed with the out-of-range coordinate clamped to
the nearest grid bound. -/
theorem claim6_out_of_range (tbl : List (List ℚ)) (press temps : List ℚ)
    (field : List Nat) (c : Nat)
    (hfield : lookupFieldCol field = some c)
    (hlen : press.length ≤ temps.length)
    (hpne : presOf tbl ≠ []) (htne : tempOf tbl ≠ [])
    (hout : (∃ p ∈ press, npMax (presOf tbl) < p)
      ∨ (∃ p ∈ press, p < npMin (presOf tbl))
      ∨ (∃ t ∈ temps, npMax (tempOf tbl) < t)
      ∨ (∃ t ∈ temps, t < npMin (tempOf tbl))) :
    ((interp_points tbl press temps field).1 ≠ [] ∧
     (interp_grid tbl press temps field).1 = (interp_points tbl press temps field).1) ∧
    ((("pressure inputs exceed the table range" : String)
        ∈ (interp_points tbl press temps field).1
        ↔ ∃ p ∈ press, npMax (presOf tbl) < p) ∧
     (("pressure inputs below the table range" : String)
        ∈ (interp_points tbl press temps field).1
        ↔ ∃ p ∈ press, p < npMin (presOf tbl)) ∧
     (("temperature inputs exceed the table range" : String)
        ∈ (interp_points tbl press temps field).1
        ↔ ∃ t ∈ temps, npMax (tempOf tbl) < t) ∧
     (("temperature inputs below the table range" : String)
        ∈ (interp_points tbl press temps field).1
        ↔ ∃ t ∈ temps, t < npMin (tempOf tbl))) ∧
    (∃ vs, (interp_points tbl press temps field).2 = some vs ∧
      vs.length = press.length ∧
      ∀ i, i < press.length → vs.getD i 0
        = interp2dEval (presOf tbl) (tempOf tbl)
            (gridAt ((buildCols tbl c).getD []))
            (clampTo (presOf tbl) (press.getD i 0))
            (clampTo (tempOf tbl) (temps.getD i 0))) ∧
    (∃ m, (interp_grid tbl press temps field).2 = some m ∧
      m.length = temps.length ∧
      ∀ j i, j < temps.length → i < press.length →
        (m.getD j []).getD i 0
          = interp2dEval (presOf tbl) (tempOf tbl)
              (gridAt ((buildCols tbl c).getD []))
              (clampTo (presOf tbl) ((List.insertionSort (· ≤ ·) press).getD i 0))
              (clampTo (tempOf tbl) ((List.insertionSort (· ≤ ·) temps).getD j 0))) := by
  have hw : (interp_points tbl press temps field).1
      = check_bounds press (presOf tbl) "pressure"
        ++ check_bounds temps (tempOf tbl) "temperature" := by
    rw [interp_points, hfield]
    by_cases hc : temps.length < press.length <;> simp [hc]
  have hwg : (interp_grid tbl press temps field).1
      = check_bounds press (presOf tbl) "pressure"
        ++ check_bounds temps (tempOf tbl) "temperature" := by
    rw [interp_grid, hfield]
  have hmem : ∀ msg : String, msg ∈ (interp_points tbl press temps field).1 ↔
      ((msg = "pressure" ++ " inputs exceed the table range"
          ∧ ∃ v ∈ press, npMax (presOf tbl) < v) ∨
       (msg = "pressure" ++ " inputs below the table range"
          ∧ ∃ v ∈ press, v < npMin (presOf tbl)) ∨
       (msg = "temperature" ++ " inputs exceed the table range"
          ∧ ∃ v ∈ temps, npMax (tempOf tbl) < v) ∨
       (msg = "temperature" ++ " inputs below the table range"
          ∧ ∃ v ∈ temps, v < npMin (tempOf tbl))) := by
    intro msg
    rw [hw, List.mem_append, mem_check_bounds_iff, mem_check_bounds_iff, or_assoc]
  refine ⟨⟨?_, hwg.trans hw.symm⟩, ⟨?_, ?_, ?_, ?_⟩, ?_, ?_⟩
  · intro hnil
    rcases hout with h | h | h | h
    · exact (List.ne_nil_of_mem ((hmem _).mpr (Or.inl ⟨rfl, h⟩))) hnil
    · exact (List.ne_nil_of_mem ((hmem _).mpr (Or.inr (Or.inl ⟨rfl, h⟩)))) hnil
    · exact (List.ne_nil_of_mem ((hmem _).mpr
        (Or.inr (Or.inr (Or.inl ⟨rfl, h⟩))))) hnil
    · exact (List.ne_nil_of_mem ((hmem _).mpr
        (Or.inr (Or.inr (Or.inr ⟨rfl, h⟩))))) hnil
  · rw [hmem]
    constructor
    · rintro (⟨-, h⟩ | ⟨hm, -⟩ | ⟨hm, -⟩ | ⟨hm, -⟩)
      · exact h
      all_goals exact absurd hm (by decide)
    · intro h
      exact Or.inl ⟨by decide, h⟩
  · rw [hmem]
    constructor
    · rintro (⟨hm, -⟩ | ⟨-, h⟩ | ⟨hm, -⟩ | ⟨hm, -⟩)
      · exact absurd hm (by decide)
      · exact h
      all_goals exact absurd hm (by decide)
    · intro h
      exact Or.inr (Or.inl ⟨by decide, h⟩)
  · rw [hmem]
    constructor
    · rintro (⟨hm, -⟩ | ⟨hm, -⟩ | ⟨-, h⟩ | ⟨hm, -⟩)
      · exact absurd hm (by decide)
      · exact absurd hm (by decide)
      · exact h
      · exact absurd hm (by decide)
    · intro h
      exact Or.inr (Or.inr (Or.inl ⟨by decide, h⟩))
  · rw [hmem]
    constructor
    · rintro (⟨hm, -⟩ | ⟨hm, -⟩ | ⟨hm, -⟩ | ⟨-, h⟩)
      · exact absurd hm (by decide)
      · exact absurd hm (by decide)
      · exact absurd hm (by decide)
      · exact h
    · intro h
      exact Or.inr (Or.inr (Or.inr ⟨by decide, h⟩))
  · refine ⟨(List.range press.length).map (fun i =>
      interp2dEval (presOf tbl) (tempOf tbl) (gridAt ((buildCols tbl c).getD []))
        (press.getD i 0) (temps.getD i 0)), ?_, by simp, ?_⟩
    · simp only [interp_points, hfield]
      rw [if_neg (not_lt.mpr hlen)]
    · intro i hi
      rw [getD_map _ _ i 0 0 (by simpa using hi), getD_range _ _ _ hi,
        interp2dEval_clamp (presOf tbl) (tempOf tbl) _ _ _
          (pairwise_npUnique _) (pairwise_npUnique _) hpne htne]
  · refine ⟨(List.insertionSort (· ≤ ·) temps).map (fun t =>
      (List.insertionSort (· ≤ ·) press).map (fun p =>
        interp2dEval (presOf tbl) (tempOf tbl)
          (gridAt ((buildCols tbl c).getD [])) p t)), ?_, ?_, ?_⟩
    · rw [interp_grid, hfield]
    · simp [List.length_insertionSort]
    · intro j i hj hi
      have hj' : j < (List.insertionSort (· ≤ ·) temps).length := by
        rw [List.length_insertionSort]
        exact hj
      have hi' : i < (List.insertionSort (· ≤ ·) press).length := by
        rw [List.length_insertionSort]
        exact hi
      rw [getD_map _ _ j 0 [] hj', getD_map _ _ i 0 0 hi',
        interp2dEval_clamp (presOf tbl) (tempOf tbl) _ _ _
          (pairwise_npUnique _) (pairwise_npUnique _) hpne htne]

/-- Witness for C6: a pressure query above the example table's range still
produces a warning (and, per the theorem, a clamped value). -/
theorem claim6_witness :
    (interp_points exampleTable [200000000] [750] [118, 112]).1 ≠ [] :=
  (claim6_out_of_range exampleTable [200000000] [750] [118, 112] 2 (by decide)
    (by decide) (by decide) (by decide)
    (Or.inl ⟨200000000, by decide, by decide⟩)).1.1

/-! ### C8: point-query length handling -/

/-- C8 (amended): `interp_points` raises (an `IndexError`, not a
`DimensionMismatchError`, which does not exist) exactly when the temperature
sequence is shorter than the pressure sequence; with
`len(temps) ≥ len(press)` it returns a 1-D array of length `len(press)` whose
`i`-th entry is the interpolated value at `(press[i], temps[i])`, silently
ignoring surplus temperatures. -/
theorem claim8_interp_points_lengths (tbl : List (List ℚ)) (press temps : List ℚ)
    (field : List Nat) (c : Nat) (hfield : lookupFieldCol field = some c) :
    (temps.length < press.length → (interp_points tbl press temps field).2 = none) ∧
    (press.length ≤ temps.length →
      ∃ vs, (interp_points tbl press temps field).2 = some vs ∧
        vs.length = press.length ∧
        ∀ i, i < press.length → vs.getD i 0
          = interp2dEval (presOf tbl) (tempOf tbl)
              (gridAt ((buildCols tbl c).getD []))
              (press.getD i 0) (temps.getD i 0)) := by
  constructor
  · intro h
    simp only [interp_points, hfield]
    rw [if_pos h]
  · intro h
    refine ⟨(List.range press.length).map (fun i =>
      interp2dEval (presOf tbl) (tempOf tbl) (gridAt ((buildCols tbl c).getD []))
        (press.getD i 0) (temps.getD i 0)), ?_, by simp, ?_⟩
    · simp only [interp_points, hfield]
      rw [if_neg (not_lt.mpr h)]
    · intro i hi
      rw [getD_map _ _ i 0 0 (by simpa using hi), getD_range _ _ _ hi]

/-- C8 counterexample: a call with more temperatures than pressures — which
the claim says must fail with `DimensionMismatchError` — succeeds, silently
ignoring the surplus temperature. -/
theorem claim8_counterexample :
    ([(500 : ℚ), 1000].length ≠ [(0 : ℚ)].length) ∧
    (interp_points exampleTable [0] [500, 1000] [118, 112]).2 ≠ none := by
  constructor
  · decide
  · decide

/-- Witness for C8 (amended): a shorter temperature list makes the query fail. -/
theorem claim8_witness :
    (interp_points exampleTable [0, 100000000] [500] [118, 112]).2 = none :=
  (claim8_interp_points_lengths exampleTable [0, 100000000] [500] [118, 112] 2
    (by decide)).1 (by decide)

/-! ### C9: linear composition interpolation -/

theorem lin_out_aux (v1 v2 d : ℚ) (hne : v1 ≠ v2) (hd : d < 0 ∨ 1 < d) :
    v1 + (v2 - v1) * d < min v1 v2 ∨ max v1 v2 < v1 + (v2 - v1) * d := by
  rcases hd with hd | hd <;> rcases lt_or_gt_of_ne hne with hv | hv
  · left
    rw [min_eq_left hv.le]
    nlinarith
  · right
    rw [max_eq_left hv.le]
    nlinarith
  · right
    rw [max_eq_right hv.le]
    nlinarith
  · left
    rw [min_eq_right hv.le]
    nlinarith

/-- C9: evaluated at `c_new = c1` the linear composition interpolation returns
`vals1` exactly; each component follows the 2-point linear model at every
`c_new`; and outside `[c1, c2]` each component with distinct endpoint values
lies strictly outside the interval spanned by the endpoint values —
extrapolation, not clamping. -/
theorem claim9_linear_interp (vals1 vals2 : List ℚ) (c1 c2 cnew : ℚ)
    (h12 : c1 ≠ c2) (hlen : vals1.length = vals2.length) :
    (linear_interp_1d vals1 vals2 c1 c2 c1 = vals1) ∧
    (∀ i, i < vals1.length →
      (linear_interp_1d vals1 vals2 c1 c2 cnew).getD i 0
        = vals1.getD i 0
          + (vals2.getD i 0 - vals1.getD i 0) * (cnew - c1) / (c2 - c1)) ∧
    (∀ i, i < vals1.length → (cnew < min c1 c2 ∨ max c1 c2 < cnew) →
      vals1.getD i 0 ≠ vals2.getD i 0 →
      ((linear_interp_1d vals1 vals2 c1 c2 cnew).getD i 0
          < min (vals1.getD i 0) (vals2.getD i 0)
       ∨ max (vals1.getD i 0) (vals2.getD i 0)
          < (linear_interp_1d vals1 vals2 c1 c2 cnew).getD i 0)) := by
  have hd12 : c2 - c1 ≠ 0 := fun hc => h12 (by linarith)
  have hbody : ∀ i, i < vals1.length →
      (linear_interp_1d vals1 vals2 c1 c2 cnew).getD i 0
        = vals1.getD i 0
          + (vals2.getD i 0 - vals1.getD i 0) * (cnew - c1) / (c2 - c1) := by
    intro i hi
    rw [linear_interp_1d,
      getD_map _ _ i (0, 0) 0 (by
        rw [List.length_zip]
        omega),
      getD_zip _ _ i 0 0 hi (by omega)]
  refine ⟨?_, hbody, ?_⟩
  · have hmc : ∀ v ∈ List.zip vals1 vals2,
        v.1 + (v.2 - v.1) * (c1 - c1) / (c2 - c1) = v.1 := by
      intro v _
      rw [sub_self]
      rw [mul_zero, zero_div, add_zero]
    rw [linear_interp_1d, List.map_congr_left hmc]
    exact List.map_fst_zip vals1 vals2 (le_of_eq hlen)
  · intro i hi hout hne
    rw [hbody i hi, mul_div_assoc]
    refine lin_out_aux _ _ _ hne ?_
    have hshift : (cnew - c1) / (c2 - c1) - 1 = (cnew - c2) / (c2 - c1) := by
      field_simp
    rcases lt_or_gt_of_ne h12 with hc | hc
    · rcases hout with hlt | hgt
      · left
        rw [min_eq_left hc.le] at hlt
        exact div_neg_of_neg_of_pos (by linarith) (by linarith)
      · right
        rw [max_eq_right hc.le] at hgt
        have : 0 < (cnew - c2) / (c2 - c1) := div_pos (by linarith) (by linarith)
        linarith [hshift]
    · rcases hout with hlt | hgt
      · right
        rw [min_eq_right hc.le] at hlt
        have : 0 < (cnew - c2) / (c2 - c1) :=
          div_pos_iff.mpr (Or.inr ⟨by linarith, by linarith⟩)
        linarith [hshift]
      · left
        rw [max_eq_left hc.le] at hgt
        exact div_neg_of_pos_of_neg (by linarith) (by linarith)

/-- Witness for C9 at concrete lists. -/
theorem claim9_witness :
    linear_interp_1d [(1 : ℚ), 2] [3, 5] 0 1 0 = [1, 2] :=
  (claim9_linear_interp [(1 : ℚ), 2] [3, 5] 0 1 0 (by norm_num) rfl).1

/-! ### C10: field-name lookup is case-insensitive -/

theorem pyLower_idem (s : List Nat) : pyLower (pyLower s) = pyLower s := by
  simp only [pyLower, List.map_map]
  refine List.map_congr_left ?_
  intro c _
  by_cases h : 65 ≤ c ∧ c ≤ 90
  · simp only [Function.comp_apply, if_pos h,
      if_neg (by omega : ¬(65 ≤ c + 32 ∧ c + 32 ≤ 90))]
  · simp only [Function.comp_apply, if_neg h]

theorem lookupFieldCol_pyLower (s : List Nat) :
    lookupFieldCol (pyLower s) = lookupFieldCol s := by
  rw [lookupFieldCol, lookupFieldCol, pyLower_idem]

/-- C10: field lookup is case-insensitive — a query with any field name
behaves exactly like the query with its lower-cased name (both `interp_points`
and `interp_grid`, failing together or returning identical results), and every
key of the field dictionary is already lower-case. -/
theorem claim10_case_insensitive :
    (∀ (tbl : List (List ℚ)) (press temps : List ℚ) (s : List Nat),
      interp_points tbl press temps s = interp_points tbl press temps (pyLower s)) ∧
    (∀ (tbl : List (List ℚ)) (press temps : List ℚ) (s : List Nat),
      interp_grid tbl press temps s = interp_grid tbl press temps (pyLower s)) ∧
    fieldColumns.map (fun e => pyLower e.1) = fieldColumns.map (fun e => e.1) := by
  refine ⟨?_, ?_, by decide⟩
  · intro tbl press temps s
    rw [interp_points, interp_points, lookupFieldCol_pyLower]
  · intro tbl press temps s
    rw [interp_grid, interp_grid, lookupFieldCol_pyLower]
